import Mathlib

/-!
# Verification of the watchlist-playtime merge/fold pipeline

Shallow embedding of the repository's merge engine (`merge.py`) and of the
batch/fold orchestration (`dump_merge_watchlist_mlr.py`), together with proofs
of the specification's claims about them.

Modelling conventions:
* A tab-separated line is represented by its list of fields (`Rec`); the
  splitting/joining by tabs (`line.split('\t')` / `'\t'.join(fields)`) is a
  bijection between lines and nonempty field lists, so we work directly with
  field lists.  The empty line is `[""]`, which is exactly what
  `''.split('\t')` yields and what `readline` produces at end of file.
* Python exceptions and `whine` (message + `sys.exit`) are modelled with
  `Except MergeErr`.
* Python `int(...)` on a string is modelled by `pyInt` (optional sign and a
  nonempty digit string), `str(...)` of an integer by `toString`.
-/

set_option maxHeartbeats 1000000

namespace Watchlist

/-- A record: the tab-separated fields of one line. -/
abbrev Rec := List String

/-- The value of a decimal digit character, if it is one. -/
def digitVal (c : Char) : Option Nat :=
  if c.toNat < 48 ∨ 57 < c.toNat then none else some (c.toNat - 48)

/-- Parse a run of decimal digits left to right onto an accumulator. -/
def digitsValAux : List Char → Nat → Option Nat
  | [], acc => some acc
  | c :: rest, acc =>
    match digitVal c with
    | none => none
    | some d => digitsValAux rest (acc * 10 + d)

/-- Parse a nonempty all-digit character list as a number. -/
def digitsVal : List Char → Option Nat
  | [] => none
  | cs => digitsValAux cs 0

/-- Python `int(s)` for the plain decimal strings appearing in these data
files: optional sign followed by a nonempty digit string. -/
def pyInt (s : String) : Option Int :=
  match s.data with
  | '-' :: rest => (digitsVal rest).map (fun n => -(n : Int))
  | '+' :: rest => (digitsVal rest).map (fun n => (n : Int))
  | cs => (digitsVal cs).map (fun n => (n : Int))

/-- Error/exit conditions of the merge engine (`whine` calls and uncaught
exceptions in `merge.py`). -/
inductive MergeErr where
  /-- `whine` in `sum_fields`: lines with differing numbers of fields
  (the two field counts are attached). -/
  | fieldCountMismatch (one two : Nat)
  /-- `whine` in `sum_fields` on `ValueError`: a sum field that is not
  integer-parsable (the two offending values are attached). -/
  | nonNumericSumField (one two : String)
  /-- uncaught `IndexError` on a sum-field access -/
  | indexError
  /-- uncaught `IndexError`/`ValueError` inside `compare_fields` -/
  | compareFailure
deriving DecidableEq, Repr

/-- Configuration of `MergeAdd` in `merge.py`: positions of the integer sort
keys, string sort keys and sum fields (after `safe_assign`). -/
structure MergeAdd where
  intkeys : List Nat
  strkeys : List Nat
  sums : List Nat
deriving DecidableEq, Repr

namespace MergeAdd

/-- The `for index in self.intkeys` loop of `MergeAdd.compare_fields`:
compare `int(one[index])` with `int(two[index])`, returning early on the
first difference; `none` models an uncaught `IndexError`/`ValueError`. -/
def cmpKeyInt (one two : Rec) : List Nat → Option Int
  | [] => some 0
  | index :: rest =>
    match one[index]?.bind pyInt, two[index]?.bind pyInt with
    | some a, some b =>
      if a < b then some (-1)
      else if a > b then some 1
      else cmpKeyInt one two rest
    | _, _ => none

/-- Python's `<` on `str`: code-point lexicographic comparison of the two
character sequences, written as an executable Boolean so it evaluates. -/
def strLtb : List Char → List Char → Bool
  | [], [] => false
  | [], _ :: _ => true
  | _ :: _, [] => false
  | a :: as, b :: bs => if a < b then true else if b < a then false else strLtb as bs

/-- The `for index in self.strkeys` loop of `MergeAdd.compare_fields`:
compare `one[index]` with `two[index]` as strings (Python compares strings
by code points, embedded here as `strLtb` on the character lists),
returning early on the first difference; `none` models an uncaught
`IndexError`. -/
def cmpKeyStr (one two : Rec) : List Nat → Option Int
  | [] => some 0
  | index :: rest =>
    match one[index]?, two[index]? with
    | some a, some b =>
      if strLtb a.data b.data then some (-1)
      else if strLtb b.data a.data then some 1
      else cmpKeyStr one two rest
    | _, _ => none

/-- `MergeAdd.compare_fields`: compare two records by the integer keys, then
the string keys, then the field counts. -/
def compare_fields (m : MergeAdd) (one_fields two_fields : Rec) : Option Int :=
  match cmpKeyInt one_fields two_fields m.intkeys with
  | none => none
  | some r =>
    if r ≠ 0 then some r
    else
      match cmpKeyStr one_fields two_fields m.strkeys with
      | none => none
      | some s =>
        if s ≠ 0 then some s
        else
          if one_fields.length > two_fields.length then some 1
          else if one_fields.length < two_fields.length then some (-1)
          else some 0

/-- One step of the `for index in self.sums` loop of `MergeAdd.sum_fields`:
`infields[index] = str(int(infields[index]) + int(to_add_fields[index]))`,
with `ValueError` caught and turned into the `NonNumericSumField` condition
and `IndexError` left uncaught. -/
def sumAt (to_add_fields : Rec) (infields : Rec) (index : Nat) : Except MergeErr Rec :=
  match infields[index]?, to_add_fields[index]? with
  | some av, some bv =>
    match pyInt av, pyInt bv with
    | some x, some y => .ok (infields.set index (toString (x + y)))
    | _, _ => .error (.nonNumericSumField av bv)
  | _, _ => .error .indexError

/-- `MergeAdd.sum_fields`: replace each sum field of the first record by the
sum of the corresponding fields, failing on differing field counts. -/
def sum_fields (m : MergeAdd) (infields to_add_fields : Rec) : Except MergeErr Rec :=
  if infields.length ≠ to_add_fields.length then
    .error (.fieldCountMismatch infields.length to_add_fields.length)
  else
    m.sums.foldlM (fun acc index => sumAt to_add_fields acc index) infields

end MergeAdd

/-- `fh.readline().rstrip('\n')` on a file modelled as its list of lines:
returns the next line and the rest, or the empty line at end of file. -/
def readline : List Rec → Rec × List Rec
  | [] => ([""], [])
  | r :: rest => (r, rest)

/-- Result of the main loop of `MergeAdd.do_merge`: the records written so
far, the two current field lists and the unread remainders of the inputs. -/
structure LoopOut where
  out : List Rec
  hf : Rec
  tf : Rec
  hrest : List Rec
  trest : List Rec
deriving DecidableEq, Repr

namespace MergeAdd

/-- The `while have_fields != [''] and to_merge_fields != ['']` loop of
`MergeAdd.do_merge`.  On `compare == 0` the first input's current record is
replaced by the sum and only the second input advances; on `< 0` the first
record is written and the first input advances; on `> 0` the second record is
written and the second input advances. -/
def mergeLoop (m : MergeAdd) (hf tf : Rec) (hrest trest : List Rec) :
    Except MergeErr LoopOut :=
  if h : hf = [""] ∨ tf = [""] then .ok ⟨[], hf, tf, hrest, trest⟩
  else
    match m.compare_fields hf tf with
    | none => .error .compareFailure
    | some result =>
      if result = 0 then
        match m.sum_fields hf tf with
        | .error e => .error e
        | .ok s =>
          let p := readline trest
          mergeLoop m s p.1 hrest p.2
      else if result < 0 then
        let p := readline hrest
        (mergeLoop m p.1 tf p.2 trest).map (fun l => { l with out := hf :: l.out })
      else
        let p := readline trest
        (mergeLoop m hf p.1 hrest p.2).map (fun l => { l with out := tf :: l.out })
termination_by hrest.length + trest.length +
  (if hf = [""] then 0 else 1) + (if tf = [""] then 0 else 1)
decreasing_by
  · obtain ⟨h1, h2⟩ := not_or.mp h
    cases trest <;> simp [readline, if_neg h1, if_neg h2] <;> (repeat' split) <;> omega
  · obtain ⟨h1, h2⟩ := not_or.mp h
    cases hrest <;> simp [readline, if_neg h1, if_neg h2] <;> (repeat' split) <;> omega
  · obtain ⟨h1, h2⟩ := not_or.mp h
    cases trest <;> simp [readline, if_neg h1, if_neg h2] <;> (repeat' split) <;> omega

end MergeAdd

/-- The two drain loops at the end of `MergeAdd.do_merge`
(`while have_line: output.write(...); have_line = have.readline().rstrip('\n')`):
emit raw lines until the first empty line (or end of file).  A line is empty
exactly when its field list is `[]` or `[""]` (the join by tabs is `""`). -/
def takeUntilEmpty : List Rec → List Rec
  | [] => []
  | r :: rest => if r = [] ∨ r = [""] then [] else r :: takeUntilEmpty rest

/-- Drain one input starting from its current fields: nothing if the joined
current line is empty, otherwise the current line followed by the remaining
lines up to the first empty one. -/
def drainFrom (f : Rec) (rest : List Rec) : List Rec :=
  if f = [] ∨ f = [""] then [] else f :: takeUntilEmpty rest

namespace MergeAdd

/-- `MergeAdd.do_merge`: read one line from each input, run the merge loop,
then drain both inputs in order (first input first). -/
def do_merge (m : MergeAdd) (have_file to_merge_file : List Rec) :
    Except MergeErr (List Rec) :=
  let ph := readline have_file
  let pt := readline to_merge_file
  match mergeLoop m ph.1 pt.1 ph.2 pt.2 with
  | .error e => .error e
  | .ok l => .ok (l.out ++ drainFrom l.hf l.hrest ++ drainFrom l.tf l.trest)

end MergeAdd

/-! ## The specification's record model and total order

`lcmp`, `KeyVec`, `kcmp` and `keyvec` formalise §3 of the spec: records are
ordered first by the integer keys (in listed order, ascending numeric), then
by the string keys (in listed order, ascending lexicographic), and, with all
key fields equal, by field count (shorter first). -/

/-- Three-way lexicographic comparison of two equally long lists:
`-1` / `0` / `1` for less / equal / greater. -/
def lcmp {α : Type} [LinearOrder α] : List α → List α → Int
  | [], _ => 0
  | _ :: _, [] => 0
  | x :: xs, y :: ys => if x < y then -1 else if y < x then 1 else lcmp xs ys

/-- The key data of a record: its integer-key values, string-key values and
field count — exactly the data the spec's total order looks at. -/
structure KeyVec where
  ints : List Int
  strs : List String
  len : Nat
deriving DecidableEq, Repr

/-- Modelled from the spec: the total order of §3 as a three-way comparison
on key data (int keys, then string keys, then shorter-first field count). -/
def kcmp (k1 k2 : KeyVec) : Int :=
  let r := lcmp k1.ints k2.ints
  if r ≠ 0 then r
  else
    let s := lcmp k1.strs k2.strs
    if s ≠ 0 then s
    else if k1.len > k2.len then 1 else if k1.len < k2.len then -1 else 0

/-- The key data of a record under a given field-role assignment. -/
def keyvec (m : MergeAdd) (r : Rec) : KeyVec :=
  ⟨m.intkeys.map (fun i => ((r[i]?).bind pyInt).getD 0),
   m.strkeys.map (fun i => (r[i]?).getD ""),
   r.length⟩

/-- All key positions of the record are present, and the integer-key values
are integer-parsable (so `compare_fields` cannot raise). -/
def WFkeys (m : MergeAdd) (r : Rec) : Prop :=
  (∀ i ∈ m.intkeys, ((r[i]?).bind pyInt).isSome = true) ∧
  (∀ i ∈ m.strkeys, i < r.length)

/-- All sum positions of the record are present and integer-parsable. -/
def WFsums (m : MergeAdd) (r : Rec) : Prop :=
  ∀ i ∈ m.sums, ((r[i]?).bind pyInt).isSome = true

/-- The field-role assignment gives the sum fields and the key fields
disjoint positions (§3: int-key / string-key / sum are distinct roles). -/
def SumsDisjoint (m : MergeAdd) : Prop :=
  ∀ i ∈ m.sums, i ∉ m.intkeys ∧ i ∉ m.strkeys

/-- `a` precedes or equals `b` in the spec's total order. -/
def recLE (m : MergeAdd) (a b : Rec) : Prop :=
  kcmp (keyvec m a) (keyvec m b) ≤ 0

/-- `a` strictly precedes `b` in the spec's total order. -/
def recLT (m : MergeAdd) (a b : Rec) : Prop :=
  kcmp (keyvec m a) (keyvec m b) < 0

/-- A run is sorted per the total order. -/
def SortedRun (m : MergeAdd) (rs : List Rec) : Prop :=
  List.Pairwise (recLE m) rs

/-- A run is strictly sorted: no two records of it are merge-equal. -/
def StrictSorted (m : MergeAdd) (rs : List Rec) : Prop :=
  List.Pairwise (recLT m) rs

/-- Every line of the file is a real record: not `[]` and not the empty
line `[""]`. -/
def GoodLines (rs : List Rec) : Prop :=
  ∀ r ∈ rs, r ≠ [] ∧ r ≠ [""]

namespace MergeAdd

/-- `do_merge` rephrased on the two runs as record lists (current record +
unread remainder fused into one list).  `do_merge_eq_codeMerge` proves it
equal to `do_merge` on well-formed files. -/
def codeMerge (m : MergeAdd) : List Rec → List Rec → Except MergeErr (List Rec)
  | [], bs => .ok bs
  | a :: as, [] => .ok (a :: as)
  | a :: as, b :: bs =>
    match m.compare_fields a b with
    | none => .error .compareFailure
    | some r =>
      if r = 0 then
        match m.sum_fields a b with
        | .error e => .error e
        | .ok s => codeMerge m (s :: as) bs
      else if r < 0 then (codeMerge m as (b :: bs)).map (fun l => a :: l)
      else (codeMerge m (a :: as) bs).map (fun l => b :: l)
termination_by as bs => as.length + bs.length

/-- Modelled from the spec (§4.3, step 2): the advance-both merge — on
`compare(a, b) == 0` emit `sum(a, b)` and advance BOTH inputs; otherwise emit
the smaller record verbatim and advance its input; on loop exit drain the
non-exhausted input verbatim. -/
def advanceBoth (m : MergeAdd) : List Rec → List Rec → Except MergeErr (List Rec)
  | [], bs => .ok bs
  | a :: as, [] => .ok (a :: as)
  | a :: as, b :: bs =>
    match m.compare_fields a b with
    | none => .error .compareFailure
    | some r =>
      if r = 0 then
        match m.sum_fields a b with
        | .error e => .error e
        | .ok s => (advanceBoth m as bs).map (fun l => s :: l)
      else if r < 0 then (advanceBoth m as (b :: bs)).map (fun l => a :: l)
      else (advanceBoth m (a :: as) bs).map (fun l => b :: l)
termination_by as bs => as.length + bs.length

end MergeAdd

/-! ## Orchestration model (`dump_merge_watchlist_mlr.py`)

The pipeline's externally visible actions are modelled as an effect trace:
filesystem operations, external commands executed via `run_without_output`,
direct database round trips, and printed lines.  Shell quoting details of the
original command strings (`$'\t'`, the single quotes around SQL text) are
elided from the strings; `DbServerInfo.build_sql_command` and
`run_sql_and_get_output` belong to the external `dumps` library and are
modelled as a plain command builder and an environment-supplied query result
respectively. -/

/-- One externally visible action of the pipeline. -/
inductive Effect where
  /-- a file is created (`MergeAdder.create_empty_file`) -/
  | fsCreate (path : String)
  /-- `shutil.move src dst` -/
  | fsMove (src dst : String)
  /-- `os.unlink path` -/
  | fsUnlink (path : String)
  /-- an external shell command is executed (`run_without_output`) -/
  | runShell (cmd : String)
  /-- a query is sent directly to the database
  (`DbServerInfo.run_sql_and_get_output`) -/
  | dbQuery (query : String)
  /-- a line is printed to stdout -/
  | printLine (msg : String)
deriving DecidableEq, Repr

/-- `e` touches the filesystem. -/
def Effect.isFs : Effect → Bool
  | .fsCreate _ => true
  | .fsMove _ _ => true
  | .fsUnlink _ => true
  | _ => false

/-- `e` executes an external command. -/
def Effect.isShell : Effect → Bool
  | .runShell _ => true
  | _ => false

/-- `e` sends a query to the database. -/
def Effect.isDb : Effect → Bool
  | .dbQuery _ => true
  | _ => false

/-- The configuration the scripts read from the `Wiki` object. -/
structure WikiConfig where
  db_name : String
  sortProg : String
  gzipProg : String
  mlrProg : String
deriving DecidableEq, Repr

/-- The state shared by `MergeAdder`, `QueryRunner` and `WatchlistDumper`:
output directory, per-query row span (`batchsize`, already `int(...)`-ed)
and the wiki configuration. -/
structure Dumper where
  outdir : String
  batchsize : Nat
  wiki : WikiConfig
deriving DecidableEq, Repr

/-- `<outdir>/<wiki>-watchlist-dumped.gz`, the per-partition dump file. -/
def dumpedPath (d : Dumper) : String :=
  d.outdir ++ "/" ++ d.wiki.db_name ++ "-watchlist-dumped.gz"

/-- `<outdir>/<wiki>-watchlist-merged.gz`, the fresh merge output. -/
def mergedPath (d : Dumper) : String :=
  d.outdir ++ "/" ++ d.wiki.db_name ++ "-watchlist-merged.gz"

/-- `<outdir>/<wiki>-mergeinto-all.gz`, the cross-batch accumulator. -/
def allMergeIntoPath (d : Dumper) : String :=
  d.outdir ++ "/" ++ d.wiki.db_name ++ "-mergeinto-all.gz"

/-- `<outdir>/<wiki>-batch-mergeinto.gz`, the within-batch accumulator. -/
def batchMergeIntoPath (d : Dumper) : String :=
  d.outdir ++ "/" ++ d.wiki.db_name ++ "-batch-mergeinto.gz"

/-- `<outdir>/<wiki>-titles.gz`, the page-title dump. -/
def titlesPath (d : Dumper) : String :=
  d.outdir ++ "/" ++ d.wiki.db_name ++ "-titles.gz"

/-- What the database answers to `select MAX(wl_id) from watchlist;`:
`none` models NULL, a missing table or any other non-numeric answer. -/
structure DbEnv where
  maxWatchlistId : Option Nat
deriving DecidableEq, Repr

/-- `run_without_output`: the command is executed as an external process
(with bounded retries, which do not change the trace on success). -/
def run_without_output (command : String) (verbose : Bool) : List Effect :=
  (if verbose then [.printLine ("command to be run with no output:  " ++ command)] else [])
    ++ [.runShell command]

/-- `MergeAdder.create_empty_file`. -/
def create_empty_file (path : String) : List Effect :=
  [.fsCreate path]

/-- The sort/mlr merge command built by `MergeAdder.merge`. -/
def mergeCommand (w : WikiConfig) (merge_into to_merge output : String) : String :=
  w.sortProg ++ " -t\t -k1n -k2  -m " ++
    "<(" ++ w.gzipProg ++ " -dc " ++ merge_into ++ ") <(" ++ w.gzipProg ++ " -dc " ++ to_merge ++ ") " ++
    " |  " ++ w.mlrProg ++ " --tsvlite -N  stats1 -g 1,2 -f 3 -a sum " ++
    " | " ++ w.gzipProg ++ " > " ++ output

/-- `MergeAdder.merge`: in dry-run mode print the command, otherwise run it. -/
def MergeAdder.merge (d : Dumper) (merge_into to_merge merged_path : String)
    (verbose dryrun : Bool) : List Effect :=
  let command := mergeCommand d.wiki merge_into to_merge merged_path
  if dryrun then [.printLine ("would run command: " ++ command)]
  else run_without_output command verbose

/-- The sql command built for `QueryRunner.do_one_query`
(`DbServerInfo.build_sql_command` is external; `-N` patching elided). -/
def buildSqlCommand (query pipeto : String) : String :=
  "mysql -N -e " ++ query ++ " | " ++ pipeto

/-- `QueryRunner.do_one_query`: in dry-run mode print the command and return,
otherwise run it. -/
def QueryRunner.do_one_query (d : Dumper) (query outpath : String)
    (verbose dryrun : Bool) : List Effect :=
  let pipeto := d.wiki.gzipProg ++ " > " ++ outpath
  let command := buildSqlCommand query pipeto
  if dryrun then [.printLine ("Would run: " ++ command)]
  else
    (if verbose then [.printLine ("Running " ++ command)] else [])
      ++ run_without_output command verbose

/-- `QueryRunner.get_max_id`: builds the MAX query and sends it to the
database via `run_sql_and_get_output` — unconditionally, there is no dry-run
guard here.  The parsing of the result lines is collapsed into the
environment-supplied `Option Nat`. -/
def QueryRunner.get_max_id (env : DbEnv) (fieldname tablename : String) :
    Option Nat × List Effect :=
  let query := "select MAX(" ++ fieldname ++ ") from " ++ tablename ++ ";"
  (env.maxWatchlistId, [.dbQuery query])

/-- The per-partition dump query of `WatchlistDumper.dump_merge_batch`. -/
def watchlistQuery (startrow endrow : Nat) : String :=
  "select wl_namespace, wl_title, COUNT(*)  FROM watchlist WHERE " ++
    "wl_id >= " ++ toString startrow ++ " AND wl_id < " ++ toString endrow ++
    " GROUP BY wl_namespace, wl_title ORDER BY wl_namespace, wl_title ASC"

/-- The `while startrow < maxid and index < count` loop of
`WatchlistDumper.dump_merge_batch`: dump one partition, merge it into the
accumulator, advance `startrow` by `batchsize` and `index` by one. -/
def batchLoop (d : Dumper) (count maxid : Nat) (merge_into_path : String)
    (verbose dryrun : Bool) (startrow index : Nat) : Nat × List Effect :=
  if h : startrow < maxid ∧ index < count then
    let endrow := startrow + d.batchsize
    let e1 := QueryRunner.do_one_query d (watchlistQuery startrow endrow) (dumpedPath d) verbose dryrun
    let e2 := MergeAdder.merge d merge_into_path (dumpedPath d) (mergedPath d) verbose dryrun
    let e3 := if dryrun then [] else [Effect.fsMove (mergedPath d) merge_into_path]
    let rest := batchLoop d count maxid merge_into_path verbose dryrun endrow (index + 1)
    (rest.1, e1 ++ e2 ++ e3 ++ rest.2)
  else (startrow, [])
termination_by count - index
decreasing_by omega

/-- `WatchlistDumper.dump_merge_batch`: seed the accumulator with an empty
file (unless dry-run), bail out with `None` if the cursor is spent or
`index >= count` already holds for the initial `index = 1`, otherwise run the
batch loop and return the advanced cursor. -/
def WatchlistDumper.dump_merge_batch (d : Dumper) (count startrow maxid : Nat)
    (merge_into_path : String) (verbose dryrun : Bool) : Option Nat × List Effect :=
  let e0 := if dryrun then [] else create_empty_file merge_into_path
  if startrow ≥ maxid ∨ 1 ≥ count then (none, e0)
  else
    let r := batchLoop d count maxid merge_into_path verbose dryrun startrow 1
    let e2 := if dryrun then [] else [Effect.fsUnlink (dumpedPath d)]
    (some r.1, e0 ++ r.2 ++ e2)

/-- The `while startrow and startrow < maxid` loop of
`WatchlistDumper.dump_watchlist`, with explicit fuel (the Python loop does
not terminate when `batchsize = 0`; every claim below holds for every fuel). -/
def watchLoop (d : Dumper) (count maxid : Nat)
    (batch_merge_into all_merge_into batch_merged : String)
    (verbose dryrun : Bool) : Nat → Option Nat → List Effect
  | 0, _ => []
  | _ + 1, none => []
  | fuel + 1, some startrow =>
    if startrow ≠ 0 ∧ startrow < maxid then
      let e1 := if verbose then [Effect.printLine ("starting dump-merge batch with row " ++ toString startrow)] else []
      let r := WatchlistDumper.dump_merge_batch d count startrow maxid batch_merge_into verbose dryrun
      let e2 := match r.1 with
        | some _ =>
          (if verbose then [Effect.printLine "merging results of dump-merge batch"] else [])
            ++ MergeAdder.merge d all_merge_into batch_merge_into batch_merged verbose dryrun
            ++ (if dryrun then [] else [Effect.fsMove batch_merged all_merge_into])
        | none => []
      e1 ++ r.2 ++ e2 ++ watchLoop d count maxid batch_merge_into all_merge_into batch_merged verbose dryrun fuel r.1
    else []

/-- `WatchlistDumper.dump_watchlist`: get the maximum watchlist id (a direct
database query, issued in dry-run mode too), bail out if it is `None`/0,
run the two-level fold loop, and publish (or, dry-run, describe) the output.
The returned flag is `false` when the script `sys.exit(1)`s. -/
def WatchlistDumper.dump_watchlist (d : Dumper) (env : DbEnv) (file_batch_count : Nat)
    (out_path : String) (verbose dryrun : Bool) (fuel : Nat) : Bool × List Effect :=
  let r := QueryRunner.get_max_id env "wl_id" "watchlist"
  let bail := r.2 ++ [Effect.printLine "Failed to get max watchlist id, bailing!"]
  match r.1 with
  | none => (false, bail)
  | some maxid =>
    if maxid = 0 then (false, bail)
    else
      let e2 := if verbose || dryrun then [Effect.printLine ("Max watchlist id: " ++ toString maxid)] else []
      let e1 := if dryrun then [] else create_empty_file (allMergeIntoPath d)
      let e3 := watchLoop d file_batch_count maxid (batchMergeIntoPath d) (allMergeIntoPath d)
        (mergedPath d) verbose dryrun fuel (some 1)
      let e4 :=
        if dryrun then
          [Effect.printLine ("output would be moved from " ++ allMergeIntoPath d ++ " to " ++ out_path)]
        else
          [Effect.fsMove (allMergeIntoPath d) out_path]
            ++ (if verbose then [Effect.printLine ("output available in " ++ out_path)] else [])
      (true, r.2 ++ e2 ++ e1 ++ e3 ++ e4)

/-- The page-title dump query of `TitleFilter.dump_titles`. -/
def titlesQuery : String :=
  "SELECT page_namespace, page_title FROM page ORDER BY page_namespace, page_title ASC"

/-- `TitleFilter.dump_titles`. -/
def TitleFilter.dump_titles (d : Dumper) (out_path : String) (verbose dryrun : Bool) : List Effect :=
  QueryRunner.do_one_query d titlesQuery out_path verbose dryrun

/-- `TitleFilter.do_filter`: dump the titles, decompress the watchlist dump,
run the mlr semi-join, and (unless dry-run) remove the work files. -/
def TitleFilter.do_filter (d : Dumper) (watchlist_dump_path filtered_path : String)
    (verbose dryrun : Bool) : List Effect :=
  let titles_path := titlesPath d
  let e1 := TitleFilter.dump_titles d titles_path verbose dryrun
  let watchlist_uncompressed := watchlist_dump_path.dropRight 3
  let cmd1 := d.wiki.gzipProg ++ " -dc " ++ watchlist_dump_path ++ " > " ++ watchlist_uncompressed
  let e2 := if dryrun then [Effect.printLine ("would run " ++ cmd1)]
            else run_without_output cmd1 verbose
  let cmd2 := d.wiki.mlrProg ++ " --tsvlite -N --prepipe " ++ d.wiki.gzipProg ++ " -dc" ++
    " join -j 1,2 -s -f " ++ watchlist_uncompressed ++ " " ++ titles_path ++
    " |  " ++ d.wiki.gzipProg ++ " > " ++ filtered_path
  let e3 := if dryrun then [Effect.printLine ("would run " ++ cmd2)]
            else run_without_output cmd2 verbose
              ++ [Effect.fsUnlink titles_path, Effect.fsUnlink watchlist_uncompressed]
  e1 ++ e2 ++ e3

/-- The whole pipeline of `do_main` after argument handling: dump+merge the
watchlist, then filter it against the existing titles, then clean up. -/
def pipelineEffects (d : Dumper) (env : DbEnv) (output : String)
    (verbose dryrun : Bool) (fuel : Nat) : List Effect :=
  let dumped_merged := d.outdir ++ "/" ++ d.wiki.db_name ++ "-watchlist-dumped-merged.gz"
  let r := WatchlistDumper.dump_watchlist d env 100 dumped_merged verbose dryrun fuel
  if !r.1 then r.2
  else
    r.2 ++ TitleFilter.do_filter d dumped_merged output verbose dryrun
      ++ (if dryrun then [] else [Effect.fsUnlink dumped_merged])

/-! ## Lemmas about the three-way comparisons -/

theorem lcmp_self {α : Type} [LinearOrder α] : ∀ xs : List α, lcmp xs xs = 0
  | [] => by simp [lcmp]
  | x :: xs => by simp only [lcmp, if_neg (lt_irrefl x)]; exact lcmp_self xs

theorem lcmp_range {α : Type} [LinearOrder α] :
    ∀ xs ys : List α, lcmp xs ys = -1 ∨ lcmp xs ys = 0 ∨ lcmp xs ys = 1
  | [], _ => by simp [lcmp]
  | _ :: _, [] => by simp [lcmp]
  | x :: xs, y :: ys => by
    simp only [lcmp]
    split_ifs with h1 h2
    · simp
    · simp
    · exact lcmp_range xs ys

theorem lcmp_antisymm {α : Type} [LinearOrder α] :
    ∀ xs ys : List α, lcmp ys xs = -(lcmp xs ys)
  | [], [] => by simp [lcmp]
  | [], _ :: _ => by simp [lcmp]
  | _ :: _, [] => by simp [lcmp]
  | x :: xs, y :: ys => by
    simp only [lcmp]
    rcases lt_trichotomy x y with h | rfl | h
    · rw [if_neg (lt_asymm h), if_pos h, if_pos h]
      norm_num
    · simp only [if_neg (lt_irrefl x)]
      exact lcmp_antisymm xs ys
    · rw [if_pos h, if_neg (lt_asymm h), if_pos h]

theorem lcmp_eq_zero_iff {α : Type} [LinearOrder α] :
    ∀ xs ys : List α, xs.length = ys.length → (lcmp xs ys = 0 ↔ xs = ys)
  | [], [] => by simp [lcmp]
  | [], _ :: _ => by intro h; simp at h
  | _ :: _, [] => by intro h; simp at h
  | x :: xs, y :: ys => by
    intro hlen
    simp only [List.length_cons, Nat.succ.injEq] at hlen
    simp only [lcmp]
    rcases lt_trichotomy x y with h | rfl | h
    · rw [if_pos h]
      simp only [List.cons.injEq]
      constructor
      · intro hc; exact absurd hc (by norm_num)
      · rintro ⟨rfl, -⟩; exact absurd h (lt_irrefl x)
    · rw [if_neg (lt_irrefl x), if_neg (lt_irrefl x)]
      rw [lcmp_eq_zero_iff xs ys hlen]
      simp
    · rw [if_neg (lt_asymm h), if_pos h]
      simp only [List.cons.injEq]
      constructor
      · intro hc; exact absurd hc (by norm_num)
      · rintro ⟨rfl, -⟩; exact absurd h (lt_irrefl x)

theorem lcmp_lt_trans {α : Type} [LinearOrder α] :
    ∀ xs ys zs : List α, xs.length = ys.length → ys.length = zs.length →
      lcmp xs ys < 0 → lcmp ys zs < 0 → lcmp xs zs < 0
  | [], ys, zs => by simp [lcmp]
  | _ :: _, [], _ => by intro h; simp at h
  | _ :: _, _ :: _, [] => by intro _ h; simp at h
  | x :: xs, y :: ys, z :: zs => by
    intro hl1 hl2 h1 h2
    simp only [List.length_cons, Nat.succ.injEq] at hl1 hl2
    simp only [lcmp] at h1 h2 ⊢
    rcases lt_trichotomy x y with hxy | rfl | hxy
    · rcases lt_trichotomy y z with hyz | rfl | hyz
      · rw [if_pos (lt_trans hxy hyz)]; norm_num
      · rw [if_pos hxy]; norm_num
      · rw [if_neg (lt_asymm hyz), if_pos hyz] at h2; exact absurd h2 (by norm_num)
    · rw [if_neg (lt_irrefl x), if_neg (lt_irrefl x)] at h1
      rcases lt_trichotomy x z with hxz | rfl | hxz
      · rw [if_pos hxz]; norm_num
      · rw [if_neg (lt_irrefl x), if_neg (lt_irrefl x)] at h2 ⊢
        exact lcmp_lt_trans xs ys zs hl1 hl2 h1 h2
      · rw [if_neg (lt_asymm hxz), if_pos hxz] at h2; exact absurd h2 (by norm_num)
    · rw [if_neg (lt_asymm hxy), if_pos hxy] at h1; exact absurd h1 (by norm_num)

theorem lcmp_le_trans {α : Type} [LinearOrder α] {xs ys zs : List α}
    (hl1 : xs.length = ys.length) (hl2 : ys.length = zs.length)
    (h1 : lcmp xs ys ≤ 0) (h2 : lcmp ys zs ≤ 0) : lcmp xs zs ≤ 0 := by
  rcases lt_or_eq_of_le h1 with h1' | h1'
  · rcases lt_or_eq_of_le h2 with h2' | h2'
    · exact le_of_lt (lcmp_lt_trans xs ys zs hl1 hl2 h1' h2')
    · obtain rfl := (lcmp_eq_zero_iff ys zs hl2).mp h2'
      exact le_of_lt h1'
  · obtain rfl := (lcmp_eq_zero_iff xs ys hl1).mp h1'
    exact h2

/-- `kcmp` only returns `-1`, `0` or `1`. -/
theorem kcmp_range (k1 k2 : KeyVec) : kcmp k1 k2 = -1 ∨ kcmp k1 k2 = 0 ∨ kcmp k1 k2 = 1 := by
  simp only [kcmp]
  rcases lcmp_range k1.ints k2.ints with h | h | h <;>
  rcases lcmp_range k1.strs k2.strs with h' | h' | h' <;>
  simp only [h, h'] <;> norm_num <;> split_ifs <;> omega

/-- With componentwise equal lengths, `kcmp` is zero exactly on equal key
vectors. -/
theorem kcmp_eq_zero_iff {k1 k2 : KeyVec}
    (hi : k1.ints.length = k2.ints.length) (hs : k1.strs.length = k2.strs.length) :
    kcmp k1 k2 = 0 ↔ k1 = k2 := by
  obtain ⟨i1, s1, l1⟩ := k1
  obtain ⟨i2, s2, l2⟩ := k2
  simp only [KeyVec.mk.injEq]
  unfold kcmp
  simp only at hi hs ⊢
  split_ifs with h1 h2 h3 h4
  · constructor
    · intro h; exact absurd h h1
    · rintro ⟨rfl, -, -⟩; exact absurd (lcmp_self ..) h1
  · constructor
    · intro h; exact absurd h h2
    · rintro ⟨-, rfl, -⟩; exact absurd (lcmp_self ..) h2
  · constructor
    · intro h; exact absurd h (by norm_num)
    · rintro ⟨-, -, rfl⟩; exact absurd h3 (lt_irrefl _)
  · constructor
    · intro h; exact absurd h (by norm_num)
    · rintro ⟨-, -, rfl⟩; exact absurd h4 (lt_irrefl _)
  · have e1 := (lcmp_eq_zero_iff i1 i2 hi).mp (not_ne_iff.mp h1)
    have e2 := (lcmp_eq_zero_iff s1 s2 hs).mp (not_ne_iff.mp h2)
    simp only [e1, e2, true_and, eq_self_iff_true]
    constructor
    · intro _; omega
    · intro _; trivial

theorem kcmp_antisymm (k1 k2 : KeyVec) : kcmp k2 k1 = -(kcmp k1 k2) := by
  unfold kcmp
  rw [lcmp_antisymm k1.ints k2.ints, lcmp_antisymm k1.strs k2.strs]
  rcases lcmp_range k1.ints k2.ints with h | h | h <;>
    rcases lcmp_range k1.strs k2.strs with h' | h' | h' <;>
      simp only [h, h'] <;> norm_num <;> omega

theorem kcmp_lt_trans {k1 k2 k3 : KeyVec}
    (hi1 : k1.ints.length = k2.ints.length) (hi2 : k2.ints.length = k3.ints.length)
    (hs1 : k1.strs.length = k2.strs.length) (hs2 : k2.strs.length = k3.strs.length)
    (h1 : kcmp k1 k2 < 0) (h2 : kcmp k2 k3 < 0) : kcmp k1 k3 < 0 := by
  unfold kcmp at h1 h2 ⊢
  by_cases e1 : lcmp k1.ints k2.ints = 0 <;> by_cases e2 : lcmp k2.ints k3.ints = 0
  · obtain h12 := (lcmp_eq_zero_iff _ _ hi1).mp e1
    obtain h23 := (lcmp_eq_zero_iff _ _ hi2).mp e2
    rw [e1] at h1; rw [e2] at h2
    rw [show lcmp k1.ints k3.ints = 0 by rw [h12, h23]; exact lcmp_self _]
    simp only [ne_eq, not_true_eq_false, if_false, if_neg (not_ne_iff.mpr rfl)] at h1 h2 ⊢
    by_cases f1 : lcmp k1.strs k2.strs = 0 <;> by_cases f2 : lcmp k2.strs k3.strs = 0
    · obtain g12 := (lcmp_eq_zero_iff _ _ hs1).mp f1
      obtain g23 := (lcmp_eq_zero_iff _ _ hs2).mp f2
      rw [f1] at h1; rw [f2] at h2
      rw [show lcmp k1.strs k3.strs = 0 by rw [g12, g23]; exact lcmp_self _]
      simp only [if_neg (not_ne_iff.mpr rfl)] at h1 h2 ⊢
      split_ifs at h1 h2 ⊢ <;> omega
    · obtain g12 := (lcmp_eq_zero_iff _ _ hs1).mp f1
      rw [if_neg (not_ne_iff.mpr f1)] at h1
      rw [if_pos f2] at h2
      rw [g12, if_pos f2]
      exact h2
    · obtain g23 := (lcmp_eq_zero_iff _ _ hs2).mp f2
      rw [if_pos f1] at h1
      rw [← g23, if_pos f1]
      exact h1
    · rw [if_pos f1] at h1
      rw [if_pos f2] at h2
      have : lcmp k1.strs k3.strs < 0 :=
        lcmp_lt_trans _ _ _ hs1 hs2 h1 h2
      rw [if_pos (by omega : lcmp k1.strs k3.strs ≠ 0)]
      exact this
  · obtain h12 := (lcmp_eq_zero_iff _ _ hi1).mp e1
    rw [if_pos e2] at h2
    rw [h12, if_pos e2]
    exact h2
  · obtain h23 := (lcmp_eq_zero_iff _ _ hi2).mp e2
    rw [if_pos e1] at h1
    rw [← h23, if_pos e1]
    exact h1
  · rw [if_pos e1] at h1
    rw [if_pos e2] at h2
    have : lcmp k1.ints k3.ints < 0 := lcmp_lt_trans _ _ _ hi1 hi2 h1 h2
    rw [if_pos (by omega : lcmp k1.ints k3.ints ≠ 0)]
    exact this

theorem kv_lt_trans (m : MergeAdd) {a b c : Rec}
    (h1 : recLT m a b) (h2 : recLT m b c) : recLT m a c :=
  kcmp_lt_trans (by simp [keyvec]) (by simp [keyvec]) (by simp [keyvec])
    (by simp [keyvec]) h1 h2

theorem kv_eq_zero_iff (m : MergeAdd) {a b : Rec} :
    kcmp (keyvec m a) (keyvec m b) = 0 ↔ keyvec m a = keyvec m b :=
  kcmp_eq_zero_iff (by simp [keyvec]) (by simp [keyvec])

theorem kv_le_trans (m : MergeAdd) {a b c : Rec}
    (h1 : recLE m a b) (h2 : recLE m b c) : recLE m a c := by
  unfold recLE at h1 h2 ⊢
  rcases lt_or_eq_of_le h1 with h1' | h1'
  · rcases lt_or_eq_of_le h2 with h2' | h2'
    · exact le_of_lt (kv_lt_trans m h1' h2')
    · rw [← (kv_eq_zero_iff m).mp h2']
      exact h1
  · rw [(kv_eq_zero_iff m).mp h1']
    exact h2

theorem kv_lt_of_lt_of_le (m : MergeAdd) {a b c : Rec}
    (h1 : recLT m a b) (h2 : recLE m b c) : recLT m a c := by
  unfold recLE at h2
  unfold recLT at h1 ⊢
  rcases lt_or_eq_of_le h2 with h2' | h2'
  · exact kv_lt_trans m h1 h2'
  · rw [← (kv_eq_zero_iff m).mp h2']
    exact h1

theorem kv_lt_of_le_of_lt (m : MergeAdd) {a b c : Rec}
    (h1 : recLE m a b) (h2 : recLT m b c) : recLT m a c := by
  unfold recLE at h1
  unfold recLT at h2 ⊢
  rcases lt_or_eq_of_le h1 with h1' | h1'
  · exact kv_lt_trans m h1' h2
  · rw [(kv_eq_zero_iff m).mp h1']
    exact h2

theorem kv_le_of_eq_of_le (m : MergeAdd) {a b c : Rec}
    (h1 : kcmp (keyvec m a) (keyvec m b) = 0) (h2 : recLE m b c) : recLE m a c := by
  unfold recLE at h2 ⊢
  rw [(kv_eq_zero_iff m).mp h1]
  exact h2

/-! ## `compare_fields` computes the spec's total order -/

theorem cmpKeyInt_eq {one two : Rec} : ∀ keys : List Nat,
    (∀ i ∈ keys, (one[i]?.bind pyInt).isSome = true) →
    (∀ i ∈ keys, (two[i]?.bind pyInt).isSome = true) →
    MergeAdd.cmpKeyInt one two keys =
      some (lcmp (keys.map fun i => (one[i]?.bind pyInt).getD 0)
                 (keys.map fun i => (two[i]?.bind pyInt).getD 0))
  | [], _, _ => rfl
  | i :: rest, h1, h2 => by
    obtain ⟨a, ha⟩ := Option.isSome_iff_exists.mp (h1 i (by simp))
    obtain ⟨b, hb⟩ := Option.isSome_iff_exists.mp (h2 i (by simp))
    simp only [MergeAdd.cmpKeyInt, List.map_cons, ha, hb, Option.getD_some, lcmp, gt_iff_lt]
    split_ifs with hab hba
    · rfl
    · rfl
    · exact cmpKeyInt_eq rest (fun j hj => h1 j (by simp [hj])) (fun j hj => h2 j (by simp [hj]))

theorem strLtb_iff_lex : ∀ cs ds : List Char,
    MergeAdd.strLtb cs ds = true ↔ List.Lex (fun a b => a < b) cs ds
  | [], [] => by simp [MergeAdd.strLtb]
  | [], d :: ds => by simp [MergeAdd.strLtb]; exact List.Lex.nil
  | c :: cs, [] => by simp [MergeAdd.strLtb]
  | c :: cs, d :: ds => by
    simp only [MergeAdd.strLtb]
    split_ifs with h1 h2
    · simp only [true_iff]; exact List.Lex.rel h1
    · simp only [false_iff]
      intro h; cases h with
      | rel h => exact absurd h h1
      | cons h => exact absurd (le_refl _) (not_le.mpr h2)
    · rw [strLtb_iff_lex cs ds]
      have heq : c = d := le_antisymm (not_lt.mp h2) (not_lt.mp h1)
      subst heq
      constructor
      · exact fun h => List.Lex.cons h
      · intro h; cases h with
        | rel h => exact absurd h h1
        | cons h => exact h

/-- `strLtb` on the character data decides Lean's string order: Python's
code-point comparison and Lean's `<` on `String` agree. -/
theorem strLtb_iff_lt (a b : String) : MergeAdd.strLtb a.data b.data = true ↔ a < b := by
  rw [String.lt_iff_toList_lt]
  exact strLtb_iff_lex a.data b.data

theorem cmpKeyStr_eq {one two : Rec} : ∀ keys : List Nat,
    (∀ i ∈ keys, i < one.length) →
    (∀ i ∈ keys, i < two.length) →
    MergeAdd.cmpKeyStr one two keys =
      some (lcmp (keys.map fun i => one[i]?.getD "")
                 (keys.map fun i => two[i]?.getD ""))
  | [], _, _ => rfl
  | i :: rest, h1, h2 => by
    have ha : one[i]? = some (one.get ⟨i, h1 i (by simp)⟩) := by
      simp [List.getElem?_eq_getElem (h1 i (by simp))]
    have hb : two[i]? = some (two.get ⟨i, h2 i (by simp)⟩) := by
      simp [List.getElem?_eq_getElem (h2 i (by simp))]
    set a := one.get ⟨i, h1 i (by simp)⟩ with hadef
    set b := two.get ⟨i, h2 i (by simp)⟩ with hbdef
    simp only [MergeAdd.cmpKeyStr, List.map_cons, ha, hb, Option.getD_some, lcmp]
    by_cases hab : a < b
    · rw [if_pos ((strLtb_iff_lt a b).mpr hab), if_pos hab]
    · rw [if_neg (fun hc => hab ((strLtb_iff_lt a b).mp hc)), if_neg hab]
      by_cases hba : b < a
      · rw [if_pos ((strLtb_iff_lt b a).mpr hba), if_pos hba]
      · rw [if_neg (fun hc => hba ((strLtb_iff_lt b a).mp hc)), if_neg hba]
        exact cmpKeyStr_eq rest (fun j hj => h1 j (by simp [hj])) (fun j hj => h2 j (by simp [hj]))

/-- Under well-formed key fields, `compare_fields` returns exactly the spec's
total-order comparison of the two records' key data. -/
theorem compare_fields_eq_kcmp (m : MergeAdd) {a b : Rec}
    (ha : WFkeys m a) (hb : WFkeys m b) :
    m.compare_fields a b = some (kcmp (keyvec m a) (keyvec m b)) := by
  obtain ⟨hai, has⟩ := ha
  obtain ⟨hbi, hbs⟩ := hb
  have e1 := cmpKeyInt_eq m.intkeys hai hbi
  have e2 := cmpKeyStr_eq m.strkeys has hbs
  simp only [MergeAdd.compare_fields, kcmp, keyvec, e1, e2]
  split_ifs <;> rfl

/-- Under well-formed key fields, `compare_fields` never raises. -/
theorem compare_fields_isSome (m : MergeAdd) {a b : Rec}
    (ha : WFkeys m a) (hb : WFkeys m b) :
    m.compare_fields a b = some (kcmp (keyvec m a) (keyvec m b)) :=
  compare_fields_eq_kcmp m ha hb

/-- `compare_fields` can only answer `0` on records of equal length
(the final length comparison orders shorter before longer). -/
theorem compare_fields_zero_length (m : MergeAdd) {a b : Rec}
    (h : m.compare_fields a b = some 0) : a.length = b.length := by
  unfold MergeAdd.compare_fields at h
  simp only [gt_iff_lt] at h
  rcases hI : MergeAdd.cmpKeyInt a b m.intkeys with _ | r <;> simp only [hI] at h
  · simp at h
  · by_cases hr : r ≠ 0
    · rw [if_pos hr] at h
      simp only [Option.some.injEq] at h
      exact absurd h hr
    · rw [if_neg hr] at h
      rcases hS : MergeAdd.cmpKeyStr a b m.strkeys with _ | s <;> simp only [hS] at h
      · simp at h
      · by_cases hs : s ≠ 0
        · rw [if_pos hs] at h
          simp only [Option.some.injEq] at h
          exact absurd h hs
        · rw [if_neg hs] at h
          by_contra hne
          rcases Nat.lt_or_ge b.length a.length with hl | hl
          · rw [if_pos hl] at h
            simp at h
          · rw [if_neg (by omega : ¬ b.length < a.length),
              if_pos (by omega : a.length < b.length)] at h
            simp at h

/-! ## Lemmas about `sum_fields` -/

theorem sumAt_ok {b acc acc2 : Rec} {i : Nat}
    (h : MergeAdd.sumAt b acc i = .ok acc2) :
    ∃ v, acc2 = acc.set i v ∧ i < acc.length := by
  unfold MergeAdd.sumAt at h
  rcases ha : acc[i]? with _ | av <;> simp only [ha] at h
  · cases h
  rcases hb : b[i]? with _ | bv <;> simp only [hb] at h
  · cases h
  rcases hx : pyInt av with _ | x <;> simp only [hx] at h
  · cases h
  rcases hy : pyInt bv with _ | y <;> simp only [hy] at h
  · cases h
  simp only [Except.ok.injEq] at h
  exact ⟨toString (x + y), h.symm, (List.getElem?_eq_some.mp ha).1⟩

theorem sumFold_ok_spec {b : Rec} :
    ∀ (l : List Nat) (acc s : Rec),
      l.foldlM (fun acc index => MergeAdd.sumAt b acc index) acc = Except.ok s →
      s.length = acc.length ∧ ∀ j, j ∉ l → s[j]? = acc[j]?
  | [], acc, s, h => by
    simp only [List.foldlM_nil] at h
    cases h
    exact ⟨rfl, fun j _ => rfl⟩
  | i :: rest, acc, s, h => by
    simp only [List.foldlM_cons] at h
    rcases hstep : MergeAdd.sumAt b acc i with e | acc2 <;> rw [hstep] at h
    · cases h
    · replace h : List.foldlM (fun acc index => MergeAdd.sumAt b acc index) acc2 rest = Except.ok s := h
      obtain ⟨hlen, hget⟩ := sumFold_ok_spec rest acc2 s h
      obtain ⟨v, rfl, hi⟩ := sumAt_ok hstep
      refine ⟨by simpa using hlen, fun j hj => ?_⟩
      have hji : j ≠ i := by intro hc; exact hj (by simp [hc])
      rw [hget j (fun hc => hj (by simp [hc])), List.getElem?_set_ne (Ne.symm hji)]

/-- On success, `sum_fields` requires equal lengths, preserves the length and
leaves every non-sum position unchanged. -/
theorem sum_fields_ok_spec (m : MergeAdd) {a b s : Rec}
    (h : m.sum_fields a b = .ok s) :
    a.length = b.length ∧ s.length = a.length ∧ ∀ j, j ∉ m.sums → s[j]? = a[j]? := by
  unfold MergeAdd.sum_fields at h
  by_cases hlen : a.length ≠ b.length
  · rw [if_pos hlen] at h
    cases h
  · rw [if_neg hlen] at h
    obtain ⟨h1, h2⟩ := sumFold_ok_spec m.sums a s h
    exact ⟨not_ne_iff.mp hlen, h1, h2⟩

/-- With sum fields disjoint from the key fields, summing does not change the
key data of the record. -/
theorem keyvec_sum_eq (m : MergeAdd) {a b s : Rec}
    (hd : SumsDisjoint m) (h : m.sum_fields a b = .ok s) :
    keyvec m s = keyvec m a := by
  obtain ⟨-, hlen, hget⟩ := sum_fields_ok_spec m h
  have hint : ∀ i ∈ m.intkeys, s[i]? = a[i]? := by
    intro i hi
    refine hget i (fun hc => ?_)
    exact (hd i hc).1 hi
  have hstr : ∀ i ∈ m.strkeys, s[i]? = a[i]? := by
    intro i hi
    refine hget i (fun hc => ?_)
    exact (hd i hc).2 hi
  unfold keyvec
  rw [hlen]
  congr 1
  · exact List.map_congr_left (fun i hi => by rw [hint i hi])
  · exact List.map_congr_left (fun i hi => by rw [hstr i hi])

/-- With sum fields disjoint from the key fields, summing preserves
well-formedness of the key fields. -/
theorem WFkeys_sum (m : MergeAdd) {a b s : Rec}
    (hd : SumsDisjoint m) (h : m.sum_fields a b = .ok s)
    (ha : WFkeys m a) : WFkeys m s := by
  obtain ⟨-, hlen, hget⟩ := sum_fields_ok_spec m h
  obtain ⟨hai, has⟩ := ha
  constructor
  · intro i hi
    rw [hget i (fun hc => (hd i hc).1 hi)]
    exact hai i hi
  · intro i hi
    rw [hlen]
    exact has i hi

theorem sumFold_ok_of {b : Rec} :
    ∀ (l : List Nat) (acc : Rec), l.Nodup →
      (∀ i ∈ l, (acc[i]?.bind pyInt).isSome = true) →
      (∀ i ∈ l, (b[i]?.bind pyInt).isSome = true) →
      ∃ s, l.foldlM (fun acc index => MergeAdd.sumAt b acc index) acc = Except.ok s
  | [], acc, _, _, _ => ⟨acc, by simp [List.foldlM_nil]; rfl⟩
  | i :: rest, acc, hnd, ha, hb => by
    obtain ⟨x, hx⟩ := Option.isSome_iff_exists.mp (ha i (by simp))
    obtain ⟨av, hav, hxa⟩ := Option.bind_eq_some.mp hx
    obtain ⟨y, hy⟩ := Option.isSome_iff_exists.mp (hb i (by simp))
    obtain ⟨bv, hbv, hyb⟩ := Option.bind_eq_some.mp hy
    have hstep : MergeAdd.sumAt b acc i = .ok (acc.set i (toString (x + y))) := by
      unfold MergeAdd.sumAt
      simp only [hav, hbv, hxa, hyb]
    have hnotin : i ∉ rest := (List.nodup_cons.mp hnd).1
    have hrest : ∀ j ∈ rest, ((acc.set i (toString (x + y)))[j]?.bind pyInt).isSome = true := by
      intro j hj
      have hji : i ≠ j := fun hc => hnotin (hc ▸ hj)
      rw [List.getElem?_set_ne hji]
      exact ha j (by simp [hj])
    obtain ⟨s, hs⟩ := sumFold_ok_of rest (acc.set i (toString (x + y)))
      (List.nodup_cons.mp hnd).2 hrest (fun j hj => hb j (by simp [hj]))
    refine ⟨s, ?_⟩
    simp only [List.foldlM_cons, hstep]
    exact hs

/-- With equal lengths, duplicate-free sum positions and parsable sum fields
on both sides, `sum_fields` succeeds. -/
theorem sum_fields_ok_of (m : MergeAdd) {a b : Rec}
    (hlen : a.length = b.length) (hnd : m.sums.Nodup)
    (ha : WFsums m a) (hb : WFsums m b) :
    ∃ s, m.sum_fields a b = .ok s := by
  obtain ⟨s, hs⟩ := sumFold_ok_of m.sums a hnd ha hb
  exact ⟨s, by unfold MergeAdd.sum_fields; rw [if_neg (not_ne_iff.mpr hlen)]; exact hs⟩

theorem sumFold_ok_values {a b : Rec} :
    ∀ (l : List Nat) (acc s : Rec), l.Nodup →
      (∀ j ∈ l, acc[j]? = a[j]?) →
      l.foldlM (fun acc index => MergeAdd.sumAt b acc index) acc = Except.ok s →
      ∀ j ∈ l, ∃ x y, a[j]?.bind pyInt = some x ∧ b[j]?.bind pyInt = some y ∧
        s[j]? = some (toString (x + y))
  | [], _, _, _, _, _ => by intro j hj; cases hj
  | i :: rest, acc, s, hnd, hinv, h => by
    simp only [List.foldlM_cons] at h
    rcases hstep : MergeAdd.sumAt b acc i with e | acc2 <;> rw [hstep] at h
    · cases h
    replace h : List.foldlM (fun acc index => MergeAdd.sumAt b acc index) acc2 rest = Except.ok s := h
    have hstep2 := hstep
    unfold MergeAdd.sumAt at hstep2
    rcases hav : acc[i]? with _ | av <;> simp only [hav] at hstep2
    · cases hstep2
    rcases hbv : b[i]? with _ | bv <;> simp only [hbv] at hstep2
    · cases hstep2
    rcases hx : pyInt av with _ | x <;> simp only [hx] at hstep2
    · cases hstep2
    rcases hy : pyInt bv with _ | y <;> simp only [hy] at hstep2
    · cases hstep2
    simp only [Except.ok.injEq] at hstep2
    have hnotin : i ∉ rest := (List.nodup_cons.mp hnd).1
    have hi : i < acc.length := (List.getElem?_eq_some.mp hav).1
    intro j hj
    rcases List.mem_cons.mp hj with rfl | hjr
    · refine ⟨x, y, ?_, ?_, ?_⟩
      · rw [← hinv j (by simp), hav]
        exact hx
      · rw [hbv]
        exact hy
      · have := (sumFold_ok_spec rest acc2 s h).2 j hnotin
        rw [this, ← hstep2, List.getElem?_set, if_pos rfl, if_pos hi]
    · have hji : i ≠ j := fun hc => hnotin (hc ▸ hjr)
      refine sumFold_ok_values rest acc2 s (List.nodup_cons.mp hnd).2 ?_ h j hjr
      intro j2 hj2
      have hji2 : i ≠ j2 := fun hc => hnotin (hc ▸ hj2)
      rw [← hstep2, List.getElem?_set_ne hji2]
      exact hinv j2 (by simp [hj2])

/-- With duplicate-free sum positions, each sum position of a successful
`sum_fields` result is the decimal of the sum of the inputs' values there. -/
theorem sum_fields_ok_values (m : MergeAdd) {a b s : Rec}
    (hnd : m.sums.Nodup) (h : m.sum_fields a b = .ok s) :
    ∀ j ∈ m.sums, ∃ x y, a[j]?.bind pyInt = some x ∧ b[j]?.bind pyInt = some y ∧
      s[j]? = some (toString (x + y)) := by
  unfold MergeAdd.sum_fields at h
  by_cases hlen : a.length ≠ b.length
  · rw [if_pos hlen] at h
    cases h
  · rw [if_neg hlen] at h
    exact sumFold_ok_values m.sums a s hnd (fun j _ => rfl) h

/-! ## Decimal strings are never empty -/

theorem toDigitsCore_ne_nil (b : Nat) :
    ∀ (fuel n : Nat) (ds : List Char), ds ≠ [] → Nat.toDigitsCore b fuel n ds ≠ []
  | 0, _, _, h => h
  | fuel + 1, n, ds, h => by
    unfold Nat.toDigitsCore
    by_cases hz : n / b = 0
    · simp [hz]
    · simpa [hz] using toDigitsCore_ne_nil b fuel (n / b) ((n % b).digitChar :: ds) (by simp)

theorem toDigits_ne_nil (b n : Nat) : Nat.toDigits b n ≠ [] := by
  unfold Nat.toDigits Nat.toDigitsCore
  by_cases hz : n / b = 0
  · simp [hz]
  · simpa [hz] using toDigitsCore_ne_nil b n (n / b) [(n % b).digitChar] (by simp)

theorem natRepr_ne_empty (n : Nat) : Nat.repr n ≠ "" := by
  unfold Nat.repr
  intro h
  have : Nat.toDigits 10 n = [] := by
    have := congrArg String.data h
    simpa [List.asString] using this
  exact toDigits_ne_nil 10 n this

theorem toString_int_ne_empty (n : Int) : toString n ≠ "" := by
  show Int.repr n ≠ ""
  unfold Int.repr
  split
  · exact natRepr_ne_empty _
  · intro h
    have h2 := congrArg String.length h
    rw [String.length_append] at h2
    have h4 : "-".length = 1 := rfl
    have h5 : ("" : String).length = 0 := rfl
    rw [h4, h5] at h2
    omega

theorem set_eq_empty_line {acc : Rec} {i : Nat} {v : String}
    (h : acc.set i v = [""]) : acc = [""] ∨ v = "" := by
  cases acc with
  | nil => simp at h
  | cons a0 rest =>
    cases i with
    | zero =>
      simp only [List.set] at h
      right
      exact (List.cons.injEq .. ▸ h).1
    | succ i =>
      simp only [List.set, List.cons.injEq] at h
      left
      obtain ⟨rfl, h2⟩ := h
      have : rest = [] := by
        have := congrArg List.length h2
        simpa using this
      rw [this]

theorem sumFold_ne_empty_line {b : Rec} :
    ∀ (l : List Nat) (acc s : Rec),
      l.foldlM (fun acc index => MergeAdd.sumAt b acc index) acc = Except.ok s →
      acc ≠ [""] → s ≠ [""]
  | [], acc, s, h, ha => by
    simp only [List.foldlM_nil] at h
    cases h
    exact ha
  | i :: rest, acc, s, h, ha => by
    simp only [List.foldlM_cons] at h
    rcases hstep : MergeAdd.sumAt b acc i with e | acc2 <;> rw [hstep] at h
    · cases h
    replace h : List.foldlM (fun acc index => MergeAdd.sumAt b acc index) acc2 rest = Except.ok s := h
    refine sumFold_ne_empty_line rest acc2 s h ?_
    unfold MergeAdd.sumAt at hstep
    rcases hav : acc[i]? with _ | av <;> simp only [hav] at hstep
    · cases hstep
    rcases hbv : b[i]? with _ | bv <;> simp only [hbv] at hstep
    · cases hstep
    rcases hx : pyInt av with _ | x <;> simp only [hx] at hstep
    · cases hstep
    rcases hy : pyInt bv with _ | y <;> simp only [hy] at hstep
    · cases hstep
    simp only [Except.ok.injEq] at hstep
    rw [← hstep]
    intro hc
    rcases set_eq_empty_line hc with h1 | h2
    · exact ha h1
    · exact toString_int_ne_empty _ h2

/-- A successful `sum_fields` never turns a real record into the empty line: no decimal string is empty. -/
theorem sum_fields_ok_ne_empty_line (m : MergeAdd) {a b s : Rec}
    (h : m.sum_fields a b = .ok s) (ha : a ≠ [""]) : s ≠ [""] := by
  unfold MergeAdd.sum_fields at h
  by_cases hlen : a.length ≠ b.length
  · rw [if_pos hlen] at h
    cases h
  · rw [if_neg hlen] at h
    exact sumFold_ne_empty_line m.sums a s h ha

theorem sum_fields_ok_ne_nil (m : MergeAdd) {a b s : Rec}
    (h : m.sum_fields a b = .ok s) (ha : a ≠ []) : s ≠ [] := by
  obtain ⟨-, hlen, -⟩ := sum_fields_ok_spec m h
  intro hc
  rw [hc] at hlen
  exact ha (List.length_eq_zero.mp hlen.symm)

/-! ## `do_merge` agrees with its record-list rephrasing `codeMerge` -/

/-- The run represented by a current record and the unread rest: empty once
the end-of-run sentinel has been read. -/
def runOf (f : Rec) (rest : List Rec) : List Rec :=
  if f = [""] then [] else f :: rest

theorem takeUntilEmpty_eq : ∀ {rs : List Rec}, GoodLines rs → takeUntilEmpty rs = rs
  | [], _ => rfl
  | r :: rest, h => by
    obtain ⟨h1, h2⟩ := h r (by simp)
    unfold takeUntilEmpty
    rw [if_neg (by tauto), takeUntilEmpty_eq (fun x hx => h x (by simp [hx]))]

theorem drainFrom_eq_runOf {f : Rec} {rest : List Rec} (hne : f ≠ []) (hg : GoodLines rest) :
    drainFrom f rest = runOf f rest := by
  by_cases hf : f = [""]
  · simp [drainFrom, runOf, hf]
  · simp [drainFrom, runOf, hf, hne, takeUntilEmpty_eq hg]

theorem codeMerge_nil_left (m : MergeAdd) (bs : List Rec) : m.codeMerge [] bs = .ok bs := by
  rw [MergeAdd.codeMerge]

theorem codeMerge_nil_right (m : MergeAdd) (a : Rec) (as : List Rec) :
    m.codeMerge (a :: as) [] = .ok (a :: as) := by
  rw [MergeAdd.codeMerge]

theorem mergeLoop_guard (m : MergeAdd) (hf tf : Rec) (hrest trest : List Rec)
    (h : hf = [""] ∨ tf = [""]) :
    m.mergeLoop hf tf hrest trest = .ok ⟨[], hf, tf, hrest, trest⟩ := by
  rw [MergeAdd.mergeLoop, dif_pos h]

theorem codeMerge_right_nil (m : MergeAdd) (as : List Rec) : m.codeMerge as [] = .ok as := by
  cases as with
  | nil => rw [MergeAdd.codeMerge]
  | cons a as => rw [MergeAdd.codeMerge]

theorem runOf_readline (rest : List Rec) (hg : GoodLines rest) :
    runOf (readline rest).1 (readline rest).2 = rest := by
  cases rest with
  | nil => simp [readline, runOf]
  | cons r rs =>
    simp only [readline, runOf]
    rw [if_neg (hg r (by simp)).2]

theorem runOf_pos (rest : List Rec) : runOf [""] rest = [] := by
  simp [runOf]

theorem runOf_neg {f : Rec} (h : f ≠ [""]) {rest : List Rec} : runOf f rest = f :: rest := by
  simp [runOf, h]

theorem goodLines_readline_tail {rs : List Rec} (hg : GoodLines rs) :
    GoodLines (readline rs).2 := by
  cases rs with
  | nil => intro x hx; cases hx
  | cons t ts =>
    intro x hx
    simp only [readline] at hx
    exact hg x (List.mem_cons_of_mem _ hx)

theorem readline_fst_ne_nil {rs : List Rec} (hg : GoodLines rs) : (readline rs).1 ≠ [] := by
  cases rs with
  | nil => simp [readline]
  | cons t ts => exact (hg t (by simp)).1

/-- The merge loop followed by the two drains computes `codeMerge` of the two
runs still to be consumed. -/
theorem mergeLoop_drain_eq (m : MergeAdd) (hf tf : Rec) (hrest trest : List Rec) :
    hf ≠ [] → tf ≠ [] → GoodLines hrest → GoodLines trest →
    (match m.mergeLoop hf tf hrest trest with
     | .error e => Except.error e
     | .ok l => Except.ok (l.out ++ drainFrom l.hf l.hrest ++ drainFrom l.tf l.trest)) =
    m.codeMerge (runOf hf hrest) (runOf tf trest) := by
  induction hf, tf, hrest, trest using MergeAdd.mergeLoop.induct m with
  | case1 hf tf hrest trest hguard =>
    intro hfn tfn hgh hgt
    rw [mergeLoop_guard m hf tf hrest trest hguard]
    rcases hguard with h1 | h1
    · subst h1
      show Except.ok ([] ++ drainFrom [""] hrest ++ drainFrom tf trest) =
        m.codeMerge (runOf [""] hrest) (runOf tf trest)
      rw [runOf_pos, codeMerge_nil_left,
        show drainFrom [""] hrest = [] by simp [drainFrom],
        drainFrom_eq_runOf tfn hgt]
      simp
    · subst h1
      show Except.ok ([] ++ drainFrom hf hrest ++ drainFrom [""] trest) =
        m.codeMerge (runOf hf hrest) (runOf [""] trest)
      rw [runOf_pos, codeMerge_right_nil,
        show drainFrom [""] trest = [] by simp [drainFrom],
        drainFrom_eq_runOf hfn hgh]
      simp
  | case2 hf tf hrest trest hguard hcmp =>
    intro hfn tfn hgh hgt
    obtain ⟨hf1, tf1⟩ := not_or.mp hguard
    rw [MergeAdd.mergeLoop, dif_neg hguard, runOf_neg hf1, runOf_neg tf1,
      MergeAdd.codeMerge]
    simp [hcmp]
  | case3 hf tf hrest trest hguard e hsum hcmp =>
    intro hfn tfn hgh hgt
    obtain ⟨hf1, tf1⟩ := not_or.mp hguard
    rw [MergeAdd.mergeLoop, dif_neg hguard, runOf_neg hf1, runOf_neg tf1,
      MergeAdd.codeMerge]
    simp [hcmp, hsum]
  | case4 hf tf hrest trest hguard s hsum p hcmp ih =>
    intro hfn tfn hgh hgt
    obtain ⟨hf1, tf1⟩ := not_or.mp hguard
    unfold_let p at ih
    rw [MergeAdd.mergeLoop, dif_neg hguard]
    have hsn : s ≠ [] := sum_fields_ok_ne_nil m hsum hfn
    have hs1 : s ≠ [""] := sum_fields_ok_ne_empty_line m hsum hf1
    have hp1 : (readline trest).1 ≠ [] := readline_fst_ne_nil hgt
    have hgp : GoodLines (readline trest).2 := goodLines_readline_tail hgt
    have heq := ih hsn hp1 hgh hgp
    rw [runOf_readline trest hgt, runOf_neg hs1] at heq
    rw [runOf_neg hf1, runOf_neg tf1, MergeAdd.codeMerge]
    simp only [hcmp, hsum]
    simp only [eq_self_iff_true, if_true]
    exact heq
  | case5 hf tf hrest trest hguard r hcmp hr0 hrneg p ih =>
    intro hfn tfn hgh hgt
    obtain ⟨hf1, tf1⟩ := not_or.mp hguard
    unfold_let p at ih
    rw [MergeAdd.mergeLoop, dif_neg hguard]
    have hp1 : (readline hrest).1 ≠ [] := readline_fst_ne_nil hgh
    have hgp : GoodLines (readline hrest).2 := goodLines_readline_tail hgh
    have heq := ih hp1 tfn hgp hgt
    rw [runOf_readline hrest hgh, runOf_neg tf1] at heq
    rw [runOf_neg hf1, runOf_neg tf1, MergeAdd.codeMerge]
    simp only [hcmp, if_neg hr0, if_pos hrneg]
    rw [← heq]
    rcases hx : m.mergeLoop (readline hrest).1 tf (readline hrest).2 trest with e | l
    · simp [Except.map]
    · simp [Except.map]
  | case6 hf tf hrest trest hguard r hcmp hr0 hrneg p ih =>
    intro hfn tfn hgh hgt
    obtain ⟨hf1, tf1⟩ := not_or.mp hguard
    unfold_let p at ih
    rw [MergeAdd.mergeLoop, dif_neg hguard]
    have hp1 : (readline trest).1 ≠ [] := readline_fst_ne_nil hgt
    have hgp : GoodLines (readline trest).2 := goodLines_readline_tail hgt
    have heq := ih hfn hp1 hgh hgp
    rw [runOf_readline trest hgt, runOf_neg hf1] at heq
    rw [runOf_neg hf1, runOf_neg tf1, MergeAdd.codeMerge]
    simp only [hcmp, if_neg hr0, if_neg hrneg]
    rw [← heq]
    rcases hx : m.mergeLoop hf (readline trest).1 hrest (readline trest).2 with e | l
    · simp [Except.map]
    · simp [Except.map]

/-- On files whose lines are all real records, `do_merge` computes exactly
`codeMerge` of the two line lists. -/
theorem do_merge_eq_codeMerge (m : MergeAdd) {A B : List Rec}
    (hA : GoodLines A) (hB : GoodLines B) :
    m.do_merge A B = m.codeMerge A B := by
  unfold MergeAdd.do_merge
  have hp1 : (readline A).1 ≠ [] := readline_fst_ne_nil hA
  have hgp : GoodLines (readline A).2 := goodLines_readline_tail hA
  have hp2 : (readline B).1 ≠ [] := readline_fst_ne_nil hB
  have hgp2 : GoodLines (readline B).2 := goodLines_readline_tail hB
  have h := mergeLoop_drain_eq m (readline A).1 (readline B).1 (readline A).2 (readline B).2
    hp1 hp2 hgp hgp2
  rw [runOf_readline A hA, runOf_readline B hB] at h
  exact h

/-! ## An empty line acts as end-of-run -/

/-- The value of `do_merge` given the state of the merge loop at exit:
the records written by the loop followed by the two drains. -/
def mergedOf : Except MergeErr LoopOut → Except MergeErr (List Rec)
  | .error e => .error e
  | .ok l => .ok (l.out ++ drainFrom l.hf l.hrest ++ drainFrom l.tf l.trest)

theorem do_merge_eq (m : MergeAdd) (A B : List Rec) :
    m.do_merge A B =
      mergedOf (m.mergeLoop (readline A).1 (readline B).1 (readline A).2 (readline B).2) := by
  unfold MergeAdd.do_merge mergedOf
  rfl

theorem mergedOf_map_out (x : Except MergeErr LoopOut) (a : Rec) :
    mergedOf (x.map (fun l => { l with out := a :: l.out })) =
      (mergedOf x).map (fun out => a :: out) := by
  cases x <;> simp [mergedOf, Except.map]

theorem takeUntilEmpty_append_empty : ∀ (xs post : List Rec),
    takeUntilEmpty (xs ++ [""] :: post) = takeUntilEmpty xs
  | [], post => by simp [takeUntilEmpty]
  | r :: rest, post => by
    simp only [List.cons_append, takeUntilEmpty, List.append_eq]
    by_cases h : r = [] ∨ r = [""]
    · rw [if_pos h, if_pos h]
    · rw [if_neg h, if_neg h, takeUntilEmpty_append_empty rest post]

theorem drainFrom_append_empty (f : Rec) (rest post : List Rec) :
    drainFrom f (rest ++ [""] :: post) = drainFrom f rest := by
  unfold drainFrom
  split_ifs
  · rfl
  · rw [takeUntilEmpty_append_empty]

theorem mergeLoop_step_none (m : MergeAdd) {hf tf : Rec} (hrest trest : List Rec)
    (hguard : ¬(hf = [""] ∨ tf = [""])) (hcmp : m.compare_fields hf tf = none) :
    m.mergeLoop hf tf hrest trest = .error .compareFailure := by
  rw [MergeAdd.mergeLoop, dif_neg hguard]
  simp [hcmp]

theorem mergeLoop_step_zero_err (m : MergeAdd) {hf tf : Rec} (hrest trest : List Rec)
    {e : MergeErr} (hguard : ¬(hf = [""] ∨ tf = [""]))
    (hcmp : m.compare_fields hf tf = some 0) (hsum : m.sum_fields hf tf = .error e) :
    m.mergeLoop hf tf hrest trest = .error e := by
  rw [MergeAdd.mergeLoop, dif_neg hguard]
  simp [hcmp, hsum]

theorem mergeLoop_step_zero (m : MergeAdd) {hf tf : Rec} (hrest trest : List Rec)
    {s : Rec} (hguard : ¬(hf = [""] ∨ tf = [""]))
    (hcmp : m.compare_fields hf tf = some 0) (hsum : m.sum_fields hf tf = .ok s) :
    m.mergeLoop hf tf hrest trest =
      m.mergeLoop s (readline trest).1 hrest (readline trest).2 := by
  rw [MergeAdd.mergeLoop, dif_neg hguard]
  simp [hcmp, hsum]

theorem mergeLoop_step_lt (m : MergeAdd) {hf tf : Rec} (hrest trest : List Rec)
    {r : Int} (hguard : ¬(hf = [""] ∨ tf = [""]))
    (hcmp : m.compare_fields hf tf = some r) (hr0 : ¬r = 0) (hneg : r < 0) :
    m.mergeLoop hf tf hrest trest =
      (m.mergeLoop (readline hrest).1 tf (readline hrest).2 trest).map
        (fun l => { l with out := hf :: l.out }) := by
  rw [MergeAdd.mergeLoop, dif_neg hguard]
  simp [hcmp, hr0, hneg]

theorem mergeLoop_step_gt (m : MergeAdd) {hf tf : Rec} (hrest trest : List Rec)
    {r : Int} (hguard : ¬(hf = [""] ∨ tf = [""]))
    (hcmp : m.compare_fields hf tf = some r) (hr0 : ¬r = 0) (hneg : ¬r < 0) :
    m.mergeLoop hf tf hrest trest =
      (m.mergeLoop hf (readline trest).1 hrest (readline trest).2).map
        (fun l => { l with out := tf :: l.out }) := by
  rw [MergeAdd.mergeLoop, dif_neg hguard]
  simp [hcmp, hr0, hneg]

/-- Everything after an empty line of the FIRST input is invisible to the
merge: it is treated as end of that run. -/
theorem mergeLoop_empty_line_left (m : MergeAdd) (hf tf : Rec)
    (hrest trest : List Rec) (post : List Rec) :
    mergedOf (m.mergeLoop hf tf (hrest ++ [""] :: post) trest) =
    mergedOf (m.mergeLoop hf tf hrest trest) := by
  induction hf, tf, hrest, trest using MergeAdd.mergeLoop.induct m with
  | case1 hf tf hrest trest hguard =>
    rw [mergeLoop_guard _ _ _ _ _ hguard, mergeLoop_guard _ _ _ _ _ hguard]
    simp only [mergedOf, drainFrom_append_empty]
  | case2 hf tf hrest trest hguard hcmp =>
    rw [mergeLoop_step_none _ _ _ hguard hcmp, mergeLoop_step_none _ _ _ hguard hcmp]
  | case3 hf tf hrest trest hguard e hsum hcmp =>
    rw [mergeLoop_step_zero_err _ _ _ hguard hcmp hsum,
      mergeLoop_step_zero_err _ _ _ hguard hcmp hsum]
  | case4 hf tf hrest trest hguard s hsum p hcmp ih =>
    unfold_let p at ih
    rw [mergeLoop_step_zero _ _ _ hguard hcmp hsum,
      mergeLoop_step_zero _ _ _ hguard hcmp hsum]
    exact ih
  | case5 hf tf hrest trest hguard r hcmp hr0 hrneg p ih =>
    unfold_let p at ih
    rw [mergeLoop_step_lt _ _ _ hguard hcmp hr0 hrneg,
      mergeLoop_step_lt _ _ _ hguard hcmp hr0 hrneg]
    cases hrest with
    | nil =>
      simp only [List.nil_append, readline]
      rw [mergeLoop_guard _ _ _ _ _ (Or.inl rfl), mergeLoop_guard _ _ _ _ _ (Or.inl rfl)]
      simp [mergedOf, Except.map, drainFrom]
    | cons x rest =>
      simp only [List.cons_append, readline]
      rw [mergedOf_map_out, mergedOf_map_out]
      simp only [readline] at ih
      rw [ih]
  | case6 hf tf hrest trest hguard r hcmp hr0 hrneg p ih =>
    unfold_let p at ih
    rw [mergeLoop_step_gt _ _ _ hguard hcmp hr0 hrneg,
      mergeLoop_step_gt _ _ _ hguard hcmp hr0 hrneg]
    rw [mergedOf_map_out, mergedOf_map_out, ih]

/-- Everything after an empty line of the SECOND input is invisible to the
merge: it is treated as end of that run. -/
theorem mergeLoop_empty_line_right (m : MergeAdd) (hf tf : Rec)
    (hrest trest : List Rec) (post : List Rec) :
    mergedOf (m.mergeLoop hf tf hrest (trest ++ [""] :: post)) =
    mergedOf (m.mergeLoop hf tf hrest trest) := by
  induction hf, tf, hrest, trest using MergeAdd.mergeLoop.induct m with
  | case1 hf tf hrest trest hguard =>
    rw [mergeLoop_guard _ _ _ _ _ hguard, mergeLoop_guard _ _ _ _ _ hguard]
    simp only [mergedOf, drainFrom_append_empty]
  | case2 hf tf hrest trest hguard hcmp =>
    rw [mergeLoop_step_none _ _ _ hguard hcmp, mergeLoop_step_none _ _ _ hguard hcmp]
  | case3 hf tf hrest trest hguard e hsum hcmp =>
    rw [mergeLoop_step_zero_err _ _ _ hguard hcmp hsum,
      mergeLoop_step_zero_err _ _ _ hguard hcmp hsum]
  | case4 hf tf hrest trest hguard s hsum p hcmp ih =>
    unfold_let p at ih
    rw [mergeLoop_step_zero _ _ _ hguard hcmp hsum,
      mergeLoop_step_zero _ _ _ hguard hcmp hsum]
    cases trest with
    | nil =>
      simp only [List.nil_append, readline]
      rw [mergeLoop_guard _ _ _ _ _ (Or.inr rfl), mergeLoop_guard _ _ _ _ _ (Or.inr rfl)]
      simp [mergedOf, drainFrom]
    | cons x rest =>
      simp only [List.cons_append, readline]
      simp only [readline] at ih
      exact ih
  | case5 hf tf hrest trest hguard r hcmp hr0 hrneg p ih =>
    unfold_let p at ih
    rw [mergeLoop_step_lt _ _ _ hguard hcmp hr0 hrneg,
      mergeLoop_step_lt _ _ _ hguard hcmp hr0 hrneg]
    rw [mergedOf_map_out, mergedOf_map_out, ih]
  | case6 hf tf hrest trest hguard r hcmp hr0 hrneg p ih =>
    unfold_let p at ih
    rw [mergeLoop_step_gt _ _ _ hguard hcmp hr0 hrneg,
      mergeLoop_step_gt _ _ _ hguard hcmp hr0 hrneg]
    cases trest with
    | nil =>
      simp only [List.nil_append, readline]
      rw [mergeLoop_guard _ _ _ _ _ (Or.inr rfl), mergeLoop_guard _ _ _ _ _ (Or.inr rfl)]
      simp [mergedOf, Except.map, drainFrom]
    | cons x rest =>
      simp only [List.cons_append, readline]
      rw [mergedOf_map_out, mergedOf_map_out]
      simp only [readline] at ih
      rw [ih]

/-- The first empty line of the first input truncates that input: the merge
behaves exactly as if the file ended there. -/
theorem do_merge_empty_line_left (m : MergeAdd) (pre post B : List Rec) :
    m.do_merge (pre ++ [""] :: post) B = m.do_merge pre B := by
  rw [do_merge_eq, do_merge_eq]
  cases pre with
  | nil =>
    simp only [List.nil_append, readline]
    rw [mergeLoop_guard _ _ _ _ _ (Or.inl rfl), mergeLoop_guard _ _ _ _ _ (Or.inl rfl)]
    simp [mergedOf, drainFrom]
  | cons x rest =>
    simp only [List.cons_append, readline]
    exact mergeLoop_empty_line_left m x (readline B).1 rest (readline B).2 post

/-- The first empty line of the second input truncates that input: the merge
behaves exactly as if the file ended there. -/
theorem do_merge_empty_line_right (m : MergeAdd) (A pre post : List Rec) :
    m.do_merge A (pre ++ [""] :: post) = m.do_merge A pre := by
  rw [do_merge_eq, do_merge_eq]
  cases pre with
  | nil =>
    simp only [List.nil_append, readline]
    rw [mergeLoop_guard _ _ _ _ _ (Or.inr rfl), mergeLoop_guard _ _ _ _ _ (Or.inr rfl)]
    simp [mergedOf, drainFrom]
  | cons x rest =>
    simp only [List.cons_append, readline]
    exact mergeLoop_empty_line_right m (readline A).1 x (readline A).2 rest post

/-! ## Merging with the empty run -/

theorem goodLines_nil : GoodLines [] := fun r hr => absurd hr (List.not_mem_nil r)

theorem do_merge_empty_right (m : MergeAdd) {A : List Rec} (hA : GoodLines A) :
    m.do_merge A [] = .ok A := by
  rw [do_merge_eq_codeMerge m hA goodLines_nil, codeMerge_right_nil]

theorem do_merge_empty_left (m : MergeAdd) {A : List Rec} (hA : GoodLines A) :
    m.do_merge [] A = .ok A := by
  rw [do_merge_eq_codeMerge m goodLines_nil hA, codeMerge_nil_left]

/-! ## Sortedness of the merge output -/

theorem recLE_refl (m : MergeAdd) (a : Rec) : recLE m a a := by
  unfold recLE
  rw [(kv_eq_zero_iff m).mpr rfl]

theorem lb_of_sorted (m : MergeAdd) {a : Rec} {as : List Rec}
    (hs : SortedRun m (a :: as)) : ∀ x ∈ a :: as, recLE m a x := by
  intro x hx
  rcases List.mem_cons.mp hx with rfl | hx'
  · exact recLE_refl m x
  · exact (List.pairwise_cons.mp hs).1 x hx'

theorem compare_some_kcmp (m : MergeAdd) {a b : Rec} {r : Int}
    (ha : WFkeys m a) (hb : WFkeys m b)
    (h : m.compare_fields a b = some r) : kcmp (keyvec m a) (keyvec m b) = r := by
  have h2 := compare_fields_eq_kcmp m ha hb
  rw [h] at h2
  exact (Option.some.inj h2).symm

theorem codeMerge_step_none (m : MergeAdd) {a b : Rec} {as bs : List Rec}
    (hcmp : m.compare_fields a b = none) :
    m.codeMerge (a :: as) (b :: bs) = .error .compareFailure := by
  rw [MergeAdd.codeMerge]
  simp [hcmp]

theorem codeMerge_step_zero_err (m : MergeAdd) {a b : Rec} {as bs : List Rec}
    {e : MergeErr} (hcmp : m.compare_fields a b = some 0)
    (hsum : m.sum_fields a b = .error e) :
    m.codeMerge (a :: as) (b :: bs) = .error e := by
  rw [MergeAdd.codeMerge]
  simp [hcmp, hsum]

theorem codeMerge_step_zero (m : MergeAdd) {a b s : Rec} {as bs : List Rec}
    (hcmp : m.compare_fields a b = some 0) (hsum : m.sum_fields a b = .ok s) :
    m.codeMerge (a :: as) (b :: bs) = m.codeMerge (s :: as) bs := by
  rw [MergeAdd.codeMerge]
  simp [hcmp, hsum]

theorem codeMerge_step_lt (m : MergeAdd) {a b : Rec} {as bs : List Rec} {r : Int}
    (hcmp : m.compare_fields a b = some r) (hr0 : ¬r = 0) (hneg : r < 0) :
    m.codeMerge (a :: as) (b :: bs) =
      (m.codeMerge as (b :: bs)).map (fun l => a :: l) := by
  rw [MergeAdd.codeMerge]
  simp [hcmp, hr0, hneg]

theorem codeMerge_step_gt (m : MergeAdd) {a b : Rec} {as bs : List Rec} {r : Int}
    (hcmp : m.compare_fields a b = some r) (hr0 : ¬r = 0) (hneg : ¬r < 0) :
    m.codeMerge (a :: as) (b :: bs) =
      (m.codeMerge (a :: as) bs).map (fun l => b :: l) := by
  rw [MergeAdd.codeMerge]
  simp [hcmp, hr0, hneg]

/-- `x` is bounded below by the head of `A` (false for an empty `A`). -/
def HeadLB (m : MergeAdd) (A : List Rec) (x : Rec) : Prop :=
  match A with
  | [] => False
  | a :: _ => recLE m a x

/-- The output of `codeMerge` on sorted, key-well-formed runs with sum fields
disjoint from key fields is sorted, and bounded below by one of the heads. -/
theorem codeMerge_sorted (m : MergeAdd) (hd : SumsDisjoint m) :
    ∀ (A B : List Rec), (∀ r ∈ A, WFkeys m r) → (∀ r ∈ B, WFkeys m r) →
      SortedRun m A → SortedRun m B → ∀ out, m.codeMerge A B = .ok out →
      SortedRun m out ∧ ∀ x ∈ out, HeadLB m A x ∨ HeadLB m B x := by
  intro A B
  induction A, B using MergeAdd.codeMerge.induct m with
  | case1 bs =>
    intro _ hWB _ hSB out hout
    rw [codeMerge_nil_left] at hout
    cases hout
    refine ⟨hSB, fun x hx => Or.inr ?_⟩
    cases bs with
    | nil => cases hx
    | cons b bs2 => exact lb_of_sorted m hSB x hx
  | case2 a as =>
    intro hWA _ hSA _ out hout
    rw [codeMerge_right_nil] at hout
    cases hout
    exact ⟨hSA, fun x hx => Or.inl (lb_of_sorted m hSA x hx)⟩
  | case3 a as b bs hcmp =>
    intro hWA hWB _ _ out hout
    rw [codeMerge_step_none m hcmp] at hout
    cases hout
  | case4 a as b bs e hsum hcmp =>
    intro _ _ _ _ out hout
    rw [codeMerge_step_zero_err m hcmp hsum] at hout
    cases hout
  | case5 a as b bs s hsum hcmp ih =>
    intro hWA hWB hSA hSB out hout
    rw [codeMerge_step_zero m hcmp hsum] at hout
    have hks : keyvec m s = keyvec m a := keyvec_sum_eq m hd hsum
    have hWs : WFkeys m s := WFkeys_sum m hd hsum (hWA a (by simp))
    have hSA2 : SortedRun m (s :: as) := by
      rw [SortedRun, List.pairwise_cons]
      refine ⟨fun x hx => ?_, (List.pairwise_cons.mp hSA).2⟩
      unfold recLE
      rw [hks]
      exact (List.pairwise_cons.mp hSA).1 x hx
    have hWA2 : ∀ r ∈ s :: as, WFkeys m r := by
      intro r hr
      rcases List.mem_cons.mp hr with rfl | hr'
      · exact hWs
      · exact hWA r (by simp [hr'])
    obtain ⟨hSout, hbound⟩ := ih hWA2 (fun r hr => hWB r (by simp [hr]))
      hSA2 (List.pairwise_cons.mp hSB).2 out hout
    refine ⟨hSout, fun x hx => ?_⟩
    rcases hbound x hx with h | h
    · left
      show recLE m a x
      have h2 : recLE m s x := h
      unfold recLE at h2 ⊢
      rw [← hks]
      exact h2
    · right
      show recLE m b x
      cases bs with
      | nil => cases h
      | cons b2 bs2 =>
        exact kv_le_trans m ((List.pairwise_cons.mp hSB).1 b2 (by simp)) h
  | case6 a as b bs r hcmp hr0 hneg ih =>
    intro hWA hWB hSA hSB out hout
    rw [codeMerge_step_lt m hcmp hr0 hneg] at hout
    rcases hrec : m.codeMerge as (b :: bs) with e | out2 <;> rw [hrec] at hout
    · cases hout
    have hout2 : a :: out2 = out := by simpa [Except.map] using hout
    subst hout2
    obtain ⟨hSout, hbound⟩ := ih (fun x hx => hWA x (by simp [hx])) hWB
      (List.pairwise_cons.mp hSA).2 hSB out2 hrec
    have hab : recLE m a b := by
      unfold recLE
      rw [compare_some_kcmp m (hWA a (by simp)) (hWB b (by simp)) hcmp]
      omega
    have hax : ∀ x ∈ out2, recLE m a x := by
      intro x hx
      rcases hbound x hx with h | h
      · cases as with
        | nil => cases h
        | cons a2 as2 =>
          exact kv_le_trans m ((List.pairwise_cons.mp hSA).1 a2 (by simp)) h
      · exact kv_le_trans m hab h
    refine ⟨List.pairwise_cons.mpr ⟨hax, hSout⟩, fun x hx => Or.inl ?_⟩
    rcases List.mem_cons.mp hx with rfl | hx'
    · exact recLE_refl m x
    · exact hax x hx'
  | case7 a as b bs r hcmp hr0 hneg ih =>
    intro hWA hWB hSA hSB out hout
    rw [codeMerge_step_gt m hcmp hr0 hneg] at hout
    rcases hrec : m.codeMerge (a :: as) bs with e | out2 <;> rw [hrec] at hout
    · cases hout
    have hout2 : b :: out2 = out := by simpa [Except.map] using hout
    subst hout2
    obtain ⟨hSout, hbound⟩ := ih hWA (fun x hx => hWB x (by simp [hx]))
      hSA (List.pairwise_cons.mp hSB).2 out2 hrec
    have hba : recLE m b a := by
      unfold recLE
      rw [kcmp_antisymm,
        compare_some_kcmp m (hWA a (by simp)) (hWB b (by simp)) hcmp]
      omega
    have hbx : ∀ x ∈ out2, recLE m b x := by
      intro x hx
      rcases hbound x hx with h | h
      · exact kv_le_trans m hba h
      · cases bs with
        | nil => cases h
        | cons b2 bs2 =>
          exact kv_le_trans m ((List.pairwise_cons.mp hSB).1 b2 (by simp)) h
    refine ⟨List.pairwise_cons.mpr ⟨hbx, hSout⟩, fun x hx => Or.inr ?_⟩
    rcases List.mem_cons.mp hx with rfl | hx'
    · exact recLE_refl m x
    · exact hbx x hx'

/-! ## Equivalence with the spec's advance-both merge -/

theorem advanceBoth_nil_left (m : MergeAdd) (bs : List Rec) :
    m.advanceBoth [] bs = .ok bs := by
  rw [MergeAdd.advanceBoth]

theorem advanceBoth_right_nil (m : MergeAdd) (as : List Rec) :
    m.advanceBoth as [] = .ok as := by
  cases as with
  | nil => rw [MergeAdd.advanceBoth]
  | cons a as => rw [MergeAdd.advanceBoth]

theorem advanceBoth_step_none (m : MergeAdd) {a b : Rec} {as bs : List Rec}
    (hcmp : m.compare_fields a b = none) :
    m.advanceBoth (a :: as) (b :: bs) = .error .compareFailure := by
  rw [MergeAdd.advanceBoth]
  simp [hcmp]

theorem advanceBoth_step_zero_err (m : MergeAdd) {a b : Rec} {as bs : List Rec}
    {e : MergeErr} (hcmp : m.compare_fields a b = some 0)
    (hsum : m.sum_fields a b = .error e) :
    m.advanceBoth (a :: as) (b :: bs) = .error e := by
  rw [MergeAdd.advanceBoth]
  simp [hcmp, hsum]

theorem advanceBoth_step_zero (m : MergeAdd) {a b s : Rec} {as bs : List Rec}
    (hcmp : m.compare_fields a b = some 0) (hsum : m.sum_fields a b = .ok s) :
    m.advanceBoth (a :: as) (b :: bs) =
      (m.advanceBoth as bs).map (fun l => s :: l) := by
  rw [MergeAdd.advanceBoth]
  simp [hcmp, hsum]

theorem advanceBoth_step_lt (m : MergeAdd) {a b : Rec} {as bs : List Rec} {r : Int}
    (hcmp : m.compare_fields a b = some r) (hr0 : ¬r = 0) (hneg : r < 0) :
    m.advanceBoth (a :: as) (b :: bs) =
      (m.advanceBoth as (b :: bs)).map (fun l => a :: l) := by
  rw [MergeAdd.advanceBoth]
  simp [hcmp, hr0, hneg]

theorem advanceBoth_step_gt (m : MergeAdd) {a b : Rec} {as bs : List Rec} {r : Int}
    (hcmp : m.compare_fields a b = some r) (hr0 : ¬r = 0) (hneg : ¬r < 0) :
    m.advanceBoth (a :: as) (b :: bs) =
      (m.advanceBoth (a :: as) bs).map (fun l => b :: l) := by
  rw [MergeAdd.advanceBoth]
  simp [hcmp, hr0, hneg]

/-- When the second run never repeats a key (strictly sorted) and the sum
fields are disjoint from the key fields, the code's merge — which on a
key-equal pair keeps the sum as the first input's current record and
advances only the second input — produces exactly the output of the spec's
advance-both algorithm. -/
theorem codeMerge_eq_advanceBoth (m : MergeAdd) (hd : SumsDisjoint m) :
    ∀ (A B : List Rec), (∀ r ∈ A, WFkeys m r) → (∀ r ∈ B, WFkeys m r) →
      StrictSorted m B → m.codeMerge A B = m.advanceBoth A B := by
  intro A B
  induction A, B using MergeAdd.advanceBoth.induct m with
  | case1 bs =>
    intro _ _ _
    rw [codeMerge_nil_left, advanceBoth_nil_left]
  | case2 a as =>
    intro _ _ _
    rw [codeMerge_right_nil, advanceBoth_right_nil]
  | case3 a as b bs hcmp =>
    intro _ _ _
    rw [codeMerge_step_none m hcmp, advanceBoth_step_none m hcmp]
  | case4 a as b bs e hsum hcmp =>
    intro _ _ _
    rw [codeMerge_step_zero_err m hcmp hsum, advanceBoth_step_zero_err m hcmp hsum]
  | case5 a as b bs s hsum hcmp ih =>
    intro hWA hWB hSB
    rw [codeMerge_step_zero m hcmp hsum, advanceBoth_step_zero m hcmp hsum]
    have hWs : WFkeys m s := WFkeys_sum m hd hsum (hWA a (by simp))
    have hks : keyvec m s = keyvec m a := keyvec_sum_eq m hd hsum
    have hkab : kcmp (keyvec m a) (keyvec m b) = 0 :=
      compare_some_kcmp m (hWA a (by simp)) (hWB b (by simp)) hcmp
    cases bs with
    | nil =>
      rw [codeMerge_right_nil, advanceBoth_right_nil]
      simp [Except.map]
    | cons b2 bs2 =>
      have hbb2 : recLT m b b2 := (List.pairwise_cons.mp hSB).1 b2 (by simp)
      have hcmp2 : m.compare_fields s b2 =
          some (kcmp (keyvec m s) (keyvec m b2)) :=
        compare_fields_eq_kcmp m hWs (hWB b2 (by simp))
      have hlt : kcmp (keyvec m s) (keyvec m b2) < 0 := by
        rw [hks, (kv_eq_zero_iff m).mp hkab]
        exact hbb2
      rw [codeMerge_step_lt m hcmp2 (by omega) hlt]
      rw [ih (fun x hx => hWA x (by simp [hx])) (fun x hx => hWB x (by simp [hx]))
        (List.pairwise_cons.mp hSB).2]
  | case6 a as b bs r hcmp hr0 hneg ih =>
    intro hWA hWB hSB
    rw [codeMerge_step_lt m hcmp hr0 hneg, advanceBoth_step_lt m hcmp hr0 hneg]
    rw [ih (fun x hx => hWA x (by simp [hx])) hWB hSB]
  | case7 a as b bs r hcmp hr0 hneg ih =>
    intro hWA hWB hSB
    rw [codeMerge_step_gt m hcmp hr0 hneg, advanceBoth_step_gt m hcmp hr0 hneg]
    rw [ih hWA (fun x hx => hWB x (by simp [hx])) (List.pairwise_cons.mp hSB).2]

/-! ## Merging runs with exactly one key-equal pair -/

/-- How many records of the run carry exactly the key data `k`. -/
def keyCount (m : MergeAdd) (k : KeyVec) (rs : List Rec) : Nat :=
  rs.countP (fun r => decide (keyvec m r = k))

/-- A merge of runs with no key-equal pair across them succeeds and is a pure
interleaving: record counts add up and every output record is an input
record. -/
theorem codeMerge_no_equal (m : MergeAdd) :
    ∀ (A B : List Rec), (∀ r ∈ A, WFkeys m r) → (∀ r ∈ B, WFkeys m r) →
      (∀ x ∈ A, ∀ y ∈ B, kcmp (keyvec m x) (keyvec m y) ≠ 0) →
      ∃ out, m.codeMerge A B = .ok out ∧
        (∀ p : Rec → Bool, out.countP p = A.countP p + B.countP p) ∧
        (∀ x ∈ out, x ∈ A ∨ x ∈ B) := by
  intro A B
  induction A, B using MergeAdd.codeMerge.induct m with
  | case1 bs =>
    intro _ _ _
    exact ⟨bs, codeMerge_nil_left m bs, by simp, fun x hx => Or.inr hx⟩
  | case2 a as =>
    intro _ _ _
    exact ⟨a :: as, codeMerge_right_nil m (a :: as), by simp, fun x hx => Or.inl hx⟩
  | case3 a as b bs hcmp =>
    intro hWA hWB _
    have h2 := compare_fields_eq_kcmp m (hWA a (by simp)) (hWB b (by simp))
    rw [hcmp] at h2
    cases h2
  | case4 a as b bs e hsum hcmp =>
    intro hWA hWB hne
    have h0 := compare_some_kcmp m (hWA a (by simp)) (hWB b (by simp)) hcmp
    exact absurd h0 (hne a (by simp) b (by simp))
  | case5 a as b bs s hsum hcmp =>
    intro hWA hWB hne
    have h0 := compare_some_kcmp m (hWA a (by simp)) (hWB b (by simp)) hcmp
    exact absurd h0 (hne a (by simp) b (by simp))
  | case6 a as b bs r hcmp hr0 hneg ih =>
    intro hWA hWB hne
    obtain ⟨out2, hout2, hcount, hmem⟩ := ih (fun x hx => hWA x (by simp [hx])) hWB
      (fun x hx y hy => hne x (by simp [hx]) y hy)
    refine ⟨a :: out2, ?_, ?_, ?_⟩
    · rw [codeMerge_step_lt m hcmp hr0 hneg, hout2]
      rfl
    · intro p
      have h := hcount p
      simp only [List.countP_cons] at h ⊢
      omega
    · intro x hx
      rcases List.mem_cons.mp hx with rfl | hx'
      · exact Or.inl (by simp)
      · rcases hmem x hx' with h | h
        · exact Or.inl (by simp [h])
        · exact Or.inr h
  | case7 a as b bs r hcmp hr0 hneg ih =>
    intro hWA hWB hne
    obtain ⟨out2, hout2, hcount, hmem⟩ := ih hWA (fun x hx => hWB x (by simp [hx]))
      (fun x hx y hy => hne x hx y (by simp [hy]))
    refine ⟨b :: out2, ?_, ?_, ?_⟩
    · rw [codeMerge_step_gt m hcmp hr0 hneg, hout2]
      rfl
    · intro p
      have h := hcount p
      simp only [List.countP_cons] at h ⊢
      omega
    · intro x hx
      rcases List.mem_cons.mp hx with rfl | hx'
      · exact Or.inr (by simp)
      · rcases hmem x hx' with h | h
        · exact Or.inl h
        · exact Or.inr (by simp [h])

theorem filter_eq_single {p : Rec → Bool} {l : List Rec} {s : Rec}
    (hc : l.countP p = 1) (hall : ∀ x ∈ l, p x = true → x = s) :
    l.filter p = [s] := by
  have hlen : (l.filter p).length = 1 := by
    rw [← List.countP_eq_length_filter]
    exact hc
  obtain ⟨x, hx⟩ := List.length_eq_one.mp hlen
  rw [hx]
  have hxl : x ∈ l.filter p := by rw [hx]; simp
  have h2 := List.mem_filter.mp hxl
  rw [hall x h2.1 h2.2]

theorem keyCount_cons_pos (m : MergeAdd) (k : KeyVec) {a : Rec} {as : List Rec}
    (ha : keyvec m a = k) : keyCount m k (a :: as) = keyCount m k as + 1 := by
  simp [keyCount, List.countP_cons, ha]

theorem keyCount_cons_neg (m : MergeAdd) (k : KeyVec) {a : Rec} {as : List Rec}
    (ha : keyvec m a ≠ k) : keyCount m k (a :: as) = keyCount m k as := by
  simp [keyCount, List.countP_cons, ha]

theorem keyCount_pos_iff (m : MergeAdd) (k : KeyVec) {rs : List Rec} :
    0 < keyCount m k rs ↔ ∃ r ∈ rs, keyvec m r = k := by
  simp [keyCount, List.countP_pos]

theorem keyCount_eq_zero (m : MergeAdd) (k : KeyVec) {rs : List Rec} :
    keyCount m k rs = 0 ↔ ∀ r ∈ rs, keyvec m r ≠ k := by
  simp [keyCount, List.countP_eq_zero]

theorem keyCount_tail_le (m : MergeAdd) (k : KeyVec) (a : Rec) (as : List Rec) :
    keyCount m k as ≤ keyCount m k (a :: as) := by
  simp only [keyCount, List.countP_cons]
  omega

/-- Merging two sorted runs that share exactly one key-equal pair: the shared
key's two records are summed, the sum succeeds, and the output contains the
summed record as its only record with that key. -/
theorem codeMerge_single_pair (m : MergeAdd) (hd : SumsDisjoint m)
    (hnd : m.sums.Nodup) (k : KeyVec) :
    ∀ (A B : List Rec),
      (∀ r ∈ A, WFkeys m r ∧ WFsums m r) → (∀ r ∈ B, WFkeys m r ∧ WFsums m r) →
      SortedRun m A → SortedRun m B →
      keyCount m k A = 1 → keyCount m k B = 1 →
      (∀ k2 : KeyVec, k2 ≠ k → keyCount m k2 A = 0 ∨ keyCount m k2 B = 0) →
      ∃ a b s out, a ∈ A ∧ b ∈ B ∧ keyvec m a = k ∧ keyvec m b = k ∧
        m.sum_fields a b = .ok s ∧ m.codeMerge A B = .ok out ∧
        out.filter (fun r => decide (keyvec m r = k)) = [s] := by
  intro A B
  induction A, B using MergeAdd.codeMerge.induct m with
  | case1 bs =>
    intro _ _ _ _ hcA _ _
    simp [keyCount] at hcA
  | case2 a as =>
    intro _ _ _ _ _ hcB _
    simp [keyCount] at hcB
  | case3 a as b bs hcmp =>
    intro hWA hWB _ _ _ _ _
    have h2 := compare_fields_eq_kcmp m (hWA a (by simp)).1 (hWB b (by simp)).1
    rw [hcmp] at h2
    cases h2
  | case4 a as b bs e hsum hcmp =>
    intro hWA hWB _ _ hcA hcB hother
    have h0 := compare_some_kcmp m (hWA a (by simp)).1 (hWB b (by simp)).1 hcmp
    have hab : keyvec m a = keyvec m b := (kv_eq_zero_iff m).mp h0
    have hlen : a.length = b.length := by
      have := congrArg KeyVec.len hab
      simpa [keyvec] using this
    obtain ⟨s, hs⟩ := sum_fields_ok_of m hlen hnd (hWA a (by simp)).2 (hWB b (by simp)).2
    cases hs.symm.trans hsum
  | case5 a as b bs s hsum hcmp ih =>
    intro hWA hWB hSA hSB hcA hcB hother
    have h0 := compare_some_kcmp m (hWA a (by simp)).1 (hWB b (by simp)).1 hcmp
    have hab : keyvec m a = keyvec m b := (kv_eq_zero_iff m).mp h0
    have hak : keyvec m a = k := by
      by_contra hne
      rcases hother (keyvec m a) hne with h | h
      · exact (keyCount_eq_zero m (keyvec m a)).mp h a (by simp) rfl
      · exact (keyCount_eq_zero m (keyvec m a)).mp h b (by simp) hab.symm
    have hbk : keyvec m b = k := by rw [← hab]; exact hak
    have hcas : keyCount m k as = 0 := by
      have h2 := @keyCount_cons_pos m k a as hak
      omega
    have hcbs : keyCount m k bs = 0 := by
      have h2 := @keyCount_cons_pos m k b bs hbk
      omega
    have hks : keyvec m s = keyvec m a := keyvec_sum_eq m hd hsum
    have hsk : keyvec m s = k := by rw [hks, hak]
    have hne : ∀ x ∈ s :: as, ∀ y ∈ bs, kcmp (keyvec m x) (keyvec m y) ≠ 0 := by
      intro x hx y hy hc
      have hxy : keyvec m x = keyvec m y := (kv_eq_zero_iff m).mp hc
      rcases List.mem_cons.mp hx with rfl | hx'
      · exact (keyCount_eq_zero m k).mp hcbs y hy (by rw [← hxy, hsk])
      · by_cases hxk : keyvec m x = k
        · exact (keyCount_eq_zero m k).mp hcas x hx' hxk
        · rcases hother (keyvec m x) hxk with h | h
          · exact (keyCount_eq_zero m (keyvec m x)).mp h x (by simp [hx']) rfl
          · exact (keyCount_eq_zero m (keyvec m x)).mp h y (by simp [hy]) (by rw [← hxy])
    have hWs : WFkeys m s := WFkeys_sum m hd hsum (hWA a (by simp)).1
    obtain ⟨out, hout, hcount, hmem⟩ := codeMerge_no_equal m (s :: as) bs
      (fun x hx => by
        rcases List.mem_cons.mp hx with rfl | hx'
        · exact hWs
        · exact (hWA x (by simp [hx'])).1)
      (fun x hx => (hWB x (by simp [hx])).1) hne
    refine ⟨a, b, s, out, by simp, by simp, hak, hbk, hsum, ?_, ?_⟩
    · rw [codeMerge_step_zero m hcmp hsum]
      exact hout
    · apply filter_eq_single
      · have h1 := hcount (fun r => decide (keyvec m r = k))
        have h2 : (s :: as).countP (fun r => decide (keyvec m r = k)) = 1 := by
          show keyCount m k (s :: as) = 1
          rw [keyCount_cons_pos m k hsk, hcas]
        have h3 : bs.countP (fun r => decide (keyvec m r = k)) = 0 := hcbs
        rw [h1, h2, h3]
      · intro x hxout hpx
        have hxk : keyvec m x = k := of_decide_eq_true hpx
        rcases hmem x hxout with hx | hx
        · rcases List.mem_cons.mp hx with rfl | hx'
          · rfl
          · exact absurd hxk ((keyCount_eq_zero m k).mp hcas x hx')
        · exact absurd hxk ((keyCount_eq_zero m k).mp hcbs x hx)
  | case6 a as b bs r hcmp hr0 hneg ih =>
    intro hWA hWB hSA hSB hcA hcB hother
    have hkr := compare_some_kcmp m (hWA a (by simp)).1 (hWB b (by simp)).1 hcmp
    have hak : keyvec m a ≠ k := by
      intro hak
      obtain ⟨b2, hb2mem, hb2k⟩ := (keyCount_pos_iff m k).mp
        (by omega : 0 < keyCount m k (b :: bs))
      have hble : recLE m b b2 := lb_of_sorted m hSB b2 hb2mem
      have hlt : recLT m a b2 := kv_lt_of_lt_of_le m
        (show recLT m a b by unfold recLT; omega) hble
      unfold recLT at hlt
      rw [(kv_eq_zero_iff m).mpr (by rw [hak, hb2k])] at hlt
      omega
    have hcA2 : keyCount m k as = 1 := by rw [keyCount_cons_neg m k hak] at hcA; exact hcA
    obtain ⟨a', b', s, out2, ha', hb', hak', hbk', hsum', hout2, hfil⟩ :=
      ih (fun x hx => hWA x (by simp [hx])) hWB
        (List.pairwise_cons.mp hSA).2 hSB hcA2 hcB
        (fun k2 hk2 => by
          rcases hother k2 hk2 with h | h
          · left
            have := keyCount_tail_le m k2 a as
            omega
          · right
            exact h)
    refine ⟨a', b', s, a :: out2, by simp [ha'], hb', hak', hbk', hsum', ?_, ?_⟩
    · rw [codeMerge_step_lt m hcmp hr0 hneg, hout2]
      rfl
    · simp only [List.filter_cons]
      rw [if_neg (by simp [hak])]
      exact hfil
  | case7 a as b bs r hcmp hr0 hneg ih =>
    intro hWA hWB hSA hSB hcA hcB hother
    have hkr := compare_some_kcmp m (hWA a (by simp)).1 (hWB b (by simp)).1 hcmp
    have hbk : keyvec m b ≠ k := by
      intro hbk
      obtain ⟨a2, ha2mem, ha2k⟩ := (keyCount_pos_iff m k).mp
        (by omega : 0 < keyCount m k (a :: as))
      have hale : recLE m a a2 := lb_of_sorted m hSA a2 ha2mem
      have hlt : recLT m b a2 := kv_lt_of_lt_of_le m
        (show recLT m b a by
          unfold recLT
          rw [kcmp_antisymm, hkr]
          omega) hale
      unfold recLT at hlt
      rw [(kv_eq_zero_iff m).mpr (by rw [hbk, ha2k])] at hlt
      omega
    have hcB2 : keyCount m k bs = 1 := by rw [keyCount_cons_neg m k hbk] at hcB; exact hcB
    obtain ⟨a', b', s, out2, ha', hb', hak', hbk', hsum', hout2, hfil⟩ :=
      ih hWA (fun x hx => hWB x (by simp [hx]))
        hSA (List.pairwise_cons.mp hSB).2 hcA hcB2
        (fun k2 hk2 => by
          rcases hother k2 hk2 with h | h
          · left
            exact h
          · right
            have := keyCount_tail_le m k2 b bs
            omega)
    refine ⟨a', b', s, b :: out2, ha', by simp [hb'], hak', hbk', hsum', ?_, ?_⟩
    · rw [codeMerge_step_gt m hcmp hr0 hneg, hout2]
      rfl
    · simp only [List.filter_cons]
      rw [if_neg (by simp [hbk])]
      exact hfil

/-! ## Orchestration lemmas -/

/-- The MAX query sent by `get_max_id('wl_id', 'watchlist')`. -/
def maxQuery : String := "select MAX(wl_id) from watchlist;"

/-- `e` is a printed line (the only action dry-run mode is meant to take). -/
def Effect.isPrint : Effect → Bool
  | .printLine _ => true
  | _ => false

theorem get_max_id_always_queries (env : DbEnv) :
    QueryRunner.get_max_id env "wl_id" "watchlist" =
      (env.maxWatchlistId, [Effect.dbQuery maxQuery]) := rfl

theorem batchLoop_step (d : Dumper) (count maxid : Nat) (path : String)
    (verbose dryrun : Bool) (startrow index : Nat)
    (h : startrow < maxid ∧ index < count) :
    batchLoop d count maxid path verbose dryrun startrow index =
      ((batchLoop d count maxid path verbose dryrun (startrow + d.batchsize) (index + 1)).1,
        QueryRunner.do_one_query d (watchlistQuery startrow (startrow + d.batchsize))
            (dumpedPath d) verbose dryrun
          ++ MergeAdder.merge d path (dumpedPath d) (mergedPath d) verbose dryrun
          ++ (if dryrun then [] else [Effect.fsMove (mergedPath d) path])
          ++ (batchLoop d count maxid path verbose dryrun (startrow + d.batchsize) (index + 1)).2) := by
  rw [batchLoop, dif_pos h]

theorem batchLoop_stop (d : Dumper) (count maxid : Nat) (path : String)
    (verbose dryrun : Bool) (startrow index : Nat)
    (h : ¬(startrow < maxid ∧ index < count)) :
    batchLoop d count maxid path verbose dryrun startrow index = (startrow, []) := by
  rw [batchLoop, dif_neg h]

theorem dump_merge_batch_none (d : Dumper) (count startrow maxid : Nat) (path : String)
    (verbose dryrun : Bool) (h : startrow ≥ maxid ∨ 1 ≥ count) :
    WatchlistDumper.dump_merge_batch d count startrow maxid path verbose dryrun =
      (none, if dryrun then [] else create_empty_file path) := by
  unfold WatchlistDumper.dump_merge_batch
  rw [if_pos h]

theorem dump_merge_batch_go (d : Dumper) (count startrow maxid : Nat) (path : String)
    (verbose dryrun : Bool) (h : ¬(startrow ≥ maxid ∨ 1 ≥ count)) :
    WatchlistDumper.dump_merge_batch d count startrow maxid path verbose dryrun =
      (some (batchLoop d count maxid path verbose dryrun startrow 1).1,
        (if dryrun then [] else create_empty_file path)
          ++ (batchLoop d count maxid path verbose dryrun startrow 1).2
          ++ (if dryrun then [] else [Effect.fsUnlink (dumpedPath d)])) := by
  unfold WatchlistDumper.dump_merge_batch
  rw [if_neg h]

/-- With a fold-group size of 1 the batch folder gives up immediately: the
initial `index = 1` already fails `index < count`, so it returns the
"no partitions" sentinel even though rows remain. -/
theorem dump_merge_batch_count_one (d : Dumper) (startrow maxid : Nat) (path : String)
    (verbose dryrun : Bool) :
    (WatchlistDumper.dump_merge_batch d 1 startrow maxid path verbose dryrun).1 = none := by
  rw [dump_merge_batch_none d 1 startrow maxid path verbose dryrun (Or.inr (by omega))]

/-- With a fold-group size of 2 and rows remaining, the batch folder fetches
and merges exactly ONE partition (the loop runs while `index < count` with
`index` starting at 1) and returns the cursor advanced by one span. -/
theorem dump_merge_batch_count_two (d : Dumper) (startrow maxid : Nat) (path : String)
    (h1 : startrow < maxid) :
    WatchlistDumper.dump_merge_batch d 2 startrow maxid path false false =
      (some (startrow + d.batchsize),
        [Effect.fsCreate path,
         Effect.runShell (buildSqlCommand (watchlistQuery startrow (startrow + d.batchsize))
           (d.wiki.gzipProg ++ " > " ++ dumpedPath d)),
         Effect.runShell (mergeCommand d.wiki path (dumpedPath d) (mergedPath d)),
         Effect.fsMove (mergedPath d) path,
         Effect.fsUnlink (dumpedPath d)]) := by
  rw [dump_merge_batch_go d 2 startrow maxid path false false (by omega)]
  rw [batchLoop_step d 2 maxid path false false startrow 1 ⟨h1, by omega⟩]
  rw [batchLoop_stop d 2 maxid path false false (startrow + d.batchsize) 2 (by omega)]
  simp [QueryRunner.do_one_query, MergeAdder.merge, run_without_output, create_empty_file]

theorem do_one_query_dry (d : Dumper) (q o : String) (v : Bool) :
    QueryRunner.do_one_query d q o v true =
      [Effect.printLine ("Would run: " ++ buildSqlCommand q (d.wiki.gzipProg ++ " > " ++ o))] := rfl

theorem merge_dry (d : Dumper) (a b c : String) (v : Bool) :
    MergeAdder.merge d a b c v true =
      [Effect.printLine ("would run command: " ++ mergeCommand d.wiki a b c)] := rfl

theorem batchLoop_dry (d : Dumper) (count maxid : Nat) (path : String) (verbose : Bool) :
    ∀ startrow index, ∀ e ∈ (batchLoop d count maxid path verbose true startrow index).2,
      Effect.isPrint e = true := by
  intro startrow index
  induction startrow, index using batchLoop.induct d count maxid path verbose true with
  | case1 startrow index h endrow ih =>
    intro e he
    rw [batchLoop_step d count maxid path verbose true startrow index h] at he
    simp only [do_one_query_dry, merge_dry, if_pos rfl, List.mem_append,
      List.mem_singleton, List.mem_cons, List.not_mem_nil, or_false, if_true] at he
    rcases he with (rfl | rfl) | he
    · rfl
    · rfl
    · exact ih e he
  | case2 startrow index h =>
    intro e he
    rw [batchLoop_stop d count maxid path verbose true startrow index h] at he
    cases he

theorem dump_merge_batch_dry (d : Dumper) (count startrow maxid : Nat) (path : String)
    (verbose : Bool) :
    ∀ e ∈ (WatchlistDumper.dump_merge_batch d count startrow maxid path verbose true).2,
      Effect.isPrint e = true := by
  by_cases h : startrow ≥ maxid ∨ 1 ≥ count
  · rw [dump_merge_batch_none d count startrow maxid path verbose true h]
    simp
  · rw [dump_merge_batch_go d count startrow maxid path verbose true h]
    intro e he
    simp only [if_pos rfl, if_true, List.nil_append, List.append_nil] at he
    exact batchLoop_dry d count maxid path verbose startrow 1 e he

theorem watchLoop_dry (d : Dumper) (count maxid : Nat) (p1 p2 p3 : String) (verbose : Bool) :
    ∀ fuel sr, ∀ e ∈ watchLoop d count maxid p1 p2 p3 verbose true fuel sr,
      Effect.isPrint e = true
  | 0, sr => by simp [watchLoop]
  | fuel + 1, none => by simp [watchLoop]
  | fuel + 1, some startrow => by
    intro e he
    unfold watchLoop at he
    by_cases h : startrow ≠ 0 ∧ startrow < maxid
    · rw [if_pos h] at he
      simp only [List.mem_append] at he
      rcases he with ((he | he) | he) | he
      · rcases hv : verbose with _ | _ <;> rw [hv] at he <;> simp at he
        rw [he]; rfl
      · exact dump_merge_batch_dry d count startrow maxid p1 verbose e he
      · rcases hr : (WatchlistDumper.dump_merge_batch d count startrow maxid p1 verbose true).1
          with _ | v <;> rw [hr] at he
        · cases he
        · simp only [merge_dry, if_pos rfl, if_true, List.append_nil, List.mem_append,
            List.mem_singleton] at he
          rcases he with he | he
          · rcases hv : verbose with _ | _ <;> rw [hv] at he <;> simp at he
            rw [he]; rfl
          · rw [he]; rfl
      · exact watchLoop_dry d count maxid p1 p2 p3 verbose fuel _ e he
    · rw [if_neg h] at he
      cases he

theorem dump_watchlist_dry (d : Dumper) (env : DbEnv) (count : Nat) (out : String)
    (verbose : Bool) (fuel : Nat) :
    ∃ rest, (WatchlistDumper.dump_watchlist d env count out verbose true fuel).2 =
      Effect.dbQuery maxQuery :: rest ∧ ∀ e ∈ rest, Effect.isPrint e = true := by
  unfold WatchlistDumper.dump_watchlist
  rw [get_max_id_always_queries]
  rcases henv : env.maxWatchlistId with _ | maxid
  · exact ⟨[Effect.printLine "Failed to get max watchlist id, bailing!"], rfl,
      by intro e he; simp at he; rw [he]; rfl⟩
  · dsimp only
    by_cases hz : maxid = 0
    · rw [if_pos hz]
      exact ⟨[Effect.printLine "Failed to get max watchlist id, bailing!"], rfl,
        by intro e he; simp at he; rw [he]; rfl⟩
    · rw [if_neg hz]
      dsimp only
      refine ⟨Effect.printLine ("Max watchlist id: " ++ toString maxid) ::
        (watchLoop d count maxid (batchMergeIntoPath d) (allMergeIntoPath d)
          (mergedPath d) verbose true fuel (some 1) ++
          [Effect.printLine ("output would be moved from " ++ allMergeIntoPath d ++
            " to " ++ out)]), by simp, ?_⟩
      intro e he
      rcases List.mem_cons.mp he with rfl | he
      · rfl
      · rcases List.mem_append.mp he with he | he
        · exact watchLoop_dry d count maxid (batchMergeIntoPath d) (allMergeIntoPath d)
            (mergedPath d) verbose fuel (some 1) e he
        · simp at he
          rw [he]
          rfl

theorem do_filter_dry (d : Dumper) (a b : String) (verbose : Bool) :
    ∀ e ∈ TitleFilter.do_filter d a b verbose true, Effect.isPrint e = true := by
  unfold TitleFilter.do_filter TitleFilter.dump_titles
  intro e he
  simp only [do_one_query_dry, if_pos rfl, if_true, List.mem_append,
    List.mem_singleton] at he
  rcases he with (he | he) | he <;> rw [he] <;> rfl

theorem pipelineEffects_dry (d : Dumper) (env : DbEnv) (output : String)
    (verbose : Bool) (fuel : Nat) :
    ∃ rest, pipelineEffects d env output verbose true fuel =
      Effect.dbQuery maxQuery :: rest ∧ ∀ e ∈ rest, Effect.isPrint e = true := by
  unfold pipelineEffects
  dsimp only
  obtain ⟨rest, hshape, hprint⟩ := dump_watchlist_dry d env 100
    (d.outdir ++ "/" ++ d.wiki.db_name ++ "-watchlist-dumped-merged.gz") verbose fuel
  rcases hb : (WatchlistDumper.dump_watchlist d env 100
      (d.outdir ++ "/" ++ d.wiki.db_name ++ "-watchlist-dumped-merged.gz") verbose true fuel).1
    with _ | _
  · rw [hshape]
    exact ⟨rest, by simp, hprint⟩
  · rw [hshape]
    refine ⟨rest ++ TitleFilter.do_filter d
      (d.outdir ++ "/" ++ d.wiki.db_name ++ "-watchlist-dumped-merged.gz") output verbose true,
      by simp, ?_⟩
    intro e he
    rcases List.mem_append.mp he with he | he
    · exact hprint e he
    · exact do_filter_dry d _ output verbose e he

theorem isPrint_not_fs {e : Effect} (h : Effect.isPrint e = true) :
    Effect.isFs e = false ∧ Effect.isShell e = false ∧ Effect.isDb e = false := by
  cases e <;> simp_all [Effect.isPrint, Effect.isFs, Effect.isShell, Effect.isDb]

/-- In dry-run mode the pipeline performs no filesystem operation and runs no
external command — but it DOES send the max-id query to the database. -/
theorem pipelineEffects_dry_classified (d : Dumper) (env : DbEnv) (output : String)
    (verbose : Bool) (fuel : Nat) :
    (pipelineEffects d env output verbose true fuel).filter Effect.isFs = [] ∧
    (pipelineEffects d env output verbose true fuel).filter Effect.isShell = [] ∧
    (pipelineEffects d env output verbose true fuel).filter Effect.isDb =
      [Effect.dbQuery maxQuery] := by
  obtain ⟨rest, hshape, hprint⟩ := pipelineEffects_dry d env output verbose fuel
  rw [hshape]
  refine ⟨?_, ?_, ?_⟩
  · rw [List.filter_cons, if_neg (by simp [Effect.isFs])]
    rw [List.filter_eq_nil]
    intro e he
    rw [(isPrint_not_fs (hprint e he)).1]
    simp
  · rw [List.filter_cons, if_neg (by simp [Effect.isShell])]
    rw [List.filter_eq_nil]
    intro e he
    rw [(isPrint_not_fs (hprint e he)).2.1]
    simp
  · rw [List.filter_cons, if_pos (by simp [Effect.isDb])]
    have hnil : rest.filter Effect.isDb = [] := by
      rw [List.filter_eq_nil]
      intro e he
      rw [(isPrint_not_fs (hprint e he)).2.2]
      simp
    rw [hnil]


/-! ## Decidability of the record predicates, for concrete instances -/

instance (m : MergeAdd) (a b : Rec) : Decidable (recLE m a b) :=
  inferInstanceAs (Decidable (kcmp (keyvec m a) (keyvec m b) ≤ 0))

instance (m : MergeAdd) (a b : Rec) : Decidable (recLT m a b) :=
  inferInstanceAs (Decidable (kcmp (keyvec m a) (keyvec m b) < 0))

instance (m : MergeAdd) (rs : List Rec) : Decidable (SortedRun m rs) :=
  inferInstanceAs (Decidable (List.Pairwise (recLE m) rs))

instance (m : MergeAdd) (rs : List Rec) : Decidable (StrictSorted m rs) :=
  inferInstanceAs (Decidable (List.Pairwise (recLT m) rs))

instance (m : MergeAdd) (r : Rec) : Decidable (WFkeys m r) :=
  inferInstanceAs (Decidable ((∀ i ∈ m.intkeys, ((r[i]?).bind pyInt).isSome = true) ∧
    (∀ i ∈ m.strkeys, i < r.length)))

instance (m : MergeAdd) (r : Rec) : Decidable (WFsums m r) :=
  inferInstanceAs (Decidable (∀ i ∈ m.sums, ((r[i]?).bind pyInt).isSome = true))

instance (m : MergeAdd) : Decidable (SumsDisjoint m) :=
  inferInstanceAs (Decidable (∀ i ∈ m.sums, i ∉ m.intkeys ∧ i ∉ m.strkeys))

instance (rs : List Rec) : Decidable (GoodLines rs) :=
  inferInstanceAs (Decidable (∀ r ∈ rs, r ≠ [] ∧ r ≠ [""]))

/-! ## Concrete instances for the scenarios -/

/-- The scenario field-role assignment of the spec: `intKeys=[0]`,
`strKeys=[1]`, `sumFields=[2]`. -/
def m0 : MergeAdd := ⟨[0], [1], [2]⟩

/-- A concrete wiki configuration for the orchestration scenarios. -/
def w0 : WikiConfig := ⟨"enwiki", "/usr/bin/sort", "/bin/gzip", "/usr/bin/mlr"⟩

/-- A concrete dumper state with partition span 200. -/
def d0 : Dumper := ⟨"/tmp/wl", 200, w0⟩

/-- A database whose maximum watchlist id is 100. -/
def env0 : DbEnv := ⟨some 100⟩

/-! ## Small helper lemmas for the claims -/

/-- `sum_fields` on records of differing field counts whines with both
counts (`whine` exits, modelled as the fatal condition). -/
theorem sum_fields_len_mismatch (m : MergeAdd) {a b : Rec} (h : a.length ≠ b.length) :
    m.sum_fields a b = .error (.fieldCountMismatch a.length b.length) := by
  unfold MergeAdd.sum_fields
  rw [if_pos h]

theorem keyCount_singleton_ne (m : MergeAdd) {r : Rec} {k2 : KeyVec}
    (h : keyvec m r ≠ k2) : keyCount m k2 [r] = 0 :=
  (keyCount_eq_zero m k2).mpr (fun x hx => by rw [List.mem_singleton.mp hx]; exact h)

/-- Evaluation of the duplicate-key scenario: the code folds the repeated
key of the second input into the same output record. -/
theorem do_merge_dup_eval :
    MergeAdd.do_merge m0 [["1","a","5"]] [["1","a","3"], ["1","a","2"]] =
      .ok [["1","a","10"]] := by
  rw [do_merge_eq_codeMerge m0 (by decide) (by decide)]
  rw [codeMerge_step_zero m0
    (show MergeAdd.compare_fields m0 ["1","a","5"] ["1","a","3"] = some 0 from rfl)
    (show MergeAdd.sum_fields m0 ["1","a","5"] ["1","a","3"] = .ok ["1","a","8"] from rfl)]
  rw [codeMerge_step_zero m0
    (show MergeAdd.compare_fields m0 ["1","a","8"] ["1","a","2"] = some 0 from rfl)
    (show MergeAdd.sum_fields m0 ["1","a","8"] ["1","a","2"] = .ok ["1","a","10"] from rfl)]
  rw [codeMerge_right_nil]

/-- Evaluation of the duplicate-key scenario under the spec's advance-both
algorithm: the repeated key of the second input survives as its own record. -/
theorem advanceBoth_dup_eval :
    MergeAdd.advanceBoth m0 [["1","a","5"]] [["1","a","3"], ["1","a","2"]] =
      .ok [["1","a","8"], ["1","a","2"]] := by
  rw [advanceBoth_step_zero m0
    (show MergeAdd.compare_fields m0 ["1","a","5"] ["1","a","3"] = some 0 from rfl)
    (show MergeAdd.sum_fields m0 ["1","a","5"] ["1","a","3"] = .ok ["1","a","8"] from rfl)]
  rw [advanceBoth_nil_left]
  rfl

/-- Evaluation of the spec's single-pair scenario. -/
theorem do_merge_single_pair_eval :
    MergeAdd.do_merge m0 [["1","a","5"]] [["1","a","3"]] = .ok [["1","a","8"]] := by
  rw [do_merge_eq_codeMerge m0 (by decide) (by decide)]
  rw [codeMerge_step_zero m0
    (show MergeAdd.compare_fields m0 ["1","a","5"] ["1","a","3"] = some 0 from rfl)
    (show MergeAdd.sum_fields m0 ["1","a","5"] ["1","a","3"] = .ok ["1","a","8"] from rfl)]
  rw [codeMerge_right_nil]

/-- Evaluation of a two-distinct-keys merge. -/
theorem do_merge_sorted_eval :
    MergeAdd.do_merge m0 [["1","a","5"]] [["1","b","3"]] =
      .ok [["1","a","5"], ["1","b","3"]] := by
  rw [do_merge_eq_codeMerge m0 (by decide) (by decide)]
  rw [codeMerge_step_lt m0
    (show MergeAdd.compare_fields m0 ["1","a","5"] ["1","b","3"] = some (-1) from rfl)
    (by decide) (by decide)]
  rw [codeMerge_nil_left]
  rfl

/-! ## The claims -/

/-- Claim C1 (corrected).  The code's merge does NOT advance both inputs on
`compare(a, b) == 0`: it keeps the sum as the first input's current record
and advances only the second input.  Its output equals the spec's
advance-both algorithm exactly when the second run never repeats a key
(strictly sorted), given well-formed key fields and sum fields disjoint
from the key fields; `C1_duplicate_keys_cex` shows the two differ when the
second run repeats a key. -/
theorem C1_merge_matches_advance_both_on_unique_keys (m : MergeAdd) (hd : SumsDisjoint m)
    (A B : List Rec) (hGA : GoodLines A) (hGB : GoodLines B)
    (hWA : ∀ r ∈ A, WFkeys m r) (hWB : ∀ r ∈ B, WFkeys m r)
    (hSB : StrictSorted m B) :
    m.do_merge A B = m.advanceBoth A B := by
  rw [do_merge_eq_codeMerge m hGA hGB]
  exact codeMerge_eq_advanceBoth m hd A B hWA hWB hSB

theorem C1_witness :
    (SumsDisjoint m0 ∧ StrictSorted m0 [["1","b","3"]]) ∧
    MergeAdd.do_merge m0 [["1","a","5"]] [["1","b","3"]] =
      MergeAdd.advanceBoth m0 [["1","a","5"]] [["1","b","3"]] :=
  ⟨⟨by decide, by decide⟩,
   C1_merge_matches_advance_both_on_unique_keys m0 (by decide)
     [["1","a","5"]] [["1","b","3"]] (by decide) (by decide) (by decide) (by decide)
     (by decide)⟩

theorem C1_duplicate_keys_cex :
    MergeAdd.do_merge m0 [["1","a","5"]] [["1","a","3"], ["1","a","2"]] =
      .ok [["1","a","10"]] ∧
    MergeAdd.advanceBoth m0 [["1","a","5"]] [["1","a","3"], ["1","a","2"]] =
      .ok [["1","a","8"], ["1","a","2"]] ∧
    MergeAdd.do_merge m0 [["1","a","5"]] [["1","a","3"], ["1","a","2"]] ≠
      MergeAdd.advanceBoth m0 [["1","a","5"]] [["1","a","3"], ["1","a","2"]] :=
  ⟨do_merge_dup_eval, advanceBoth_dup_eval, by
    rw [do_merge_dup_eval, advanceBoth_dup_eval]
    intro hc
    exact absurd (Except.ok.inj hc) (by decide)⟩

/-- Claim C2 (code bug).  The batch folder merges at most `count - 1`
partitions, not `count`: `index` starts at 1 and the loop runs while
`index < count`.  With `count = 1` it returns the `None` sentinel at once —
fetching nothing — even though rows remain, and with `count = 2` it fetches
and merges exactly one partition before returning the advanced cursor. -/
theorem C2_batch_folds_count_minus_one (d : Dumper) (startrow maxid : Nat) (path : String)
    (h1 : startrow < maxid) :
    (WatchlistDumper.dump_merge_batch d 1 startrow maxid path false false).1 = none ∧
    WatchlistDumper.dump_merge_batch d 2 startrow maxid path false false =
      (some (startrow + d.batchsize),
        [Effect.fsCreate path,
         Effect.runShell (buildSqlCommand (watchlistQuery startrow (startrow + d.batchsize))
           (d.wiki.gzipProg ++ " > " ++ dumpedPath d)),
         Effect.runShell (mergeCommand d.wiki path (dumpedPath d) (mergedPath d)),
         Effect.fsMove (mergedPath d) path,
         Effect.fsUnlink (dumpedPath d)]) :=
  ⟨dump_merge_batch_count_one d startrow maxid path false false,
   dump_merge_batch_count_two d startrow maxid path h1⟩

theorem C2_witness :
    (1 : Nat) < 100 ∧
    ((WatchlistDumper.dump_merge_batch d0 1 1 100 "/tmp/wl/acc.gz" false false).1 = none ∧
     WatchlistDumper.dump_merge_batch d0 2 1 100 "/tmp/wl/acc.gz" false false =
       (some (1 + d0.batchsize),
         [Effect.fsCreate "/tmp/wl/acc.gz",
          Effect.runShell (buildSqlCommand (watchlistQuery 1 (1 + d0.batchsize))
            (d0.wiki.gzipProg ++ " > " ++ dumpedPath d0)),
          Effect.runShell (mergeCommand d0.wiki "/tmp/wl/acc.gz" (dumpedPath d0) (mergedPath d0)),
          Effect.fsMove (mergedPath d0) "/tmp/wl/acc.gz",
          Effect.fsUnlink (dumpedPath d0)])) :=
  ⟨by decide, C2_batch_folds_count_minus_one d0 1 100 "/tmp/wl/acc.gz" (by decide)⟩

/-- Claim C3 (corrected).  With `count = 2`, rows remaining and one
partition covering the whole remaining id range, `dump_merge_batch` folds
exactly one partition and returns the ADVANCED CURSOR `startrow + batchsize`
— not the `None` sentinel; `None` is only returned by the NEXT call, whose
cursor then sits at or past `maxid`. -/
theorem C3_one_fold_returns_cursor (d : Dumper) (startrow maxid : Nat) (path : String)
    (h1 : startrow < maxid) (h2 : maxid ≤ startrow + d.batchsize) :
    WatchlistDumper.dump_merge_batch d 2 startrow maxid path false false =
      (some (startrow + d.batchsize),
        [Effect.fsCreate path,
         Effect.runShell (buildSqlCommand (watchlistQuery startrow (startrow + d.batchsize))
           (d.wiki.gzipProg ++ " > " ++ dumpedPath d)),
         Effect.runShell (mergeCommand d.wiki path (dumpedPath d) (mergedPath d)),
         Effect.fsMove (mergedPath d) path,
         Effect.fsUnlink (dumpedPath d)]) ∧
    (WatchlistDumper.dump_merge_batch d 2 (startrow + d.batchsize) maxid path false false).1 =
      none := by
  refine ⟨dump_merge_batch_count_two d startrow maxid path h1, ?_⟩
  rw [dump_merge_batch_none d 2 (startrow + d.batchsize) maxid path false false (Or.inl h2)]

theorem C3_witness :
    ((1 : Nat) < 100 ∧ 100 ≤ 1 + d0.batchsize) ∧
    (WatchlistDumper.dump_merge_batch d0 2 1 100 "/tmp/wl/acc.gz" false false =
      (some (1 + d0.batchsize),
        [Effect.fsCreate "/tmp/wl/acc.gz",
         Effect.runShell (buildSqlCommand (watchlistQuery 1 (1 + d0.batchsize))
           (d0.wiki.gzipProg ++ " > " ++ dumpedPath d0)),
         Effect.runShell (mergeCommand d0.wiki "/tmp/wl/acc.gz" (dumpedPath d0) (mergedPath d0)),
         Effect.fsMove (mergedPath d0) "/tmp/wl/acc.gz",
         Effect.fsUnlink (dumpedPath d0)]) ∧
     (WatchlistDumper.dump_merge_batch d0 2 (1 + d0.batchsize) 100 "/tmp/wl/acc.gz" false false).1 =
       none) :=
  ⟨⟨by decide, by decide⟩,
   C3_one_fold_returns_cursor d0 1 100 "/tmp/wl/acc.gz" (by decide) (by decide)⟩

theorem C3_returns_cursor_not_none_cex :
    (WatchlistDumper.dump_merge_batch d0 2 1 100 "/tmp/wl/batch.gz" false false).1 = some 201 ∧
    (WatchlistDumper.dump_merge_batch d0 2 1 100 "/tmp/wl/batch.gz" false false).1 ≠ none := by
  have h := dump_merge_batch_count_two d0 1 100 "/tmp/wl/batch.gz" (by decide)
  rw [h]
  exact ⟨by decide, by decide⟩

/-- Claim C4 (corrected).  In dry-run mode the pipeline touches no file and
runs no external command, but it DOES touch the data source: `get_max_id`
sends the max-id query to the database unconditionally (it has no dry-run
guard), so the dry-run trace filters to no filesystem effect, no shell
command, and exactly one database query. -/
theorem C4_dry_run_frame (d : Dumper) (env : DbEnv) (output : String)
    (verbose : Bool) (fuel : Nat) :
    (pipelineEffects d env output verbose true fuel).filter Effect.isFs = [] ∧
    (pipelineEffects d env output verbose true fuel).filter Effect.isShell = [] ∧
    (pipelineEffects d env output verbose true fuel).filter Effect.isDb =
      [Effect.dbQuery maxQuery] :=
  pipelineEffects_dry_classified d env output verbose fuel

theorem C4_dry_run_queries_db_cex :
    (pipelineEffects d0 env0 "/tmp/wl/final.gz" false true 3).filter Effect.isDb =
      [Effect.dbQuery maxQuery] ∧
    (pipelineEffects d0 env0 "/tmp/wl/final.gz" false true 3).filter Effect.isDb ≠ [] := by
  have h := (pipelineEffects_dry_classified d0 env0 "/tmp/wl/final.gz" false 3).2.2
  rw [h]
  exact ⟨rfl, by simp⟩

/-- Claim C5 (corrected).  `sum_fields` does whine with both field counts
whenever the records' field counts differ — but such a pair is never
key-equal: `compare_fields` answers 0 only on records of equal field count
(the count is the order's final tie-breaker), so the merge never reaches
`sum_fields` on records of differing counts, and no `FieldCountMismatch` is
raised for a key-equal pair; `C5_no_error_both_emitted_cex` shows the merge
instead emits both records. -/
theorem C5_mismatch_unreachable_for_key_equal (m : MergeAdd) (a b : Rec)
    (h : a.length ≠ b.length) :
    m.sum_fields a b = .error (.fieldCountMismatch a.length b.length) ∧
    m.compare_fields a b ≠ some 0 :=
  ⟨sum_fields_len_mismatch m h, fun hc => h (compare_fields_zero_length m hc)⟩

theorem C5_witness :
    (["1","a","5"] : Rec).length ≠ (["1","a","5","x"] : Rec).length ∧
    (MergeAdd.sum_fields m0 ["1","a","5"] ["1","a","5","x"] =
        .error (.fieldCountMismatch (["1","a","5"] : Rec).length
          (["1","a","5","x"] : Rec).length) ∧
      MergeAdd.compare_fields m0 ["1","a","5"] ["1","a","5","x"] ≠ some 0) :=
  ⟨by decide,
   C5_mismatch_unreachable_for_key_equal m0 ["1","a","5"] ["1","a","5","x"] (by decide)⟩

theorem C5_no_error_both_emitted_cex :
    MergeAdd.do_merge m0 [["1","a","5"]] [["1","a","5","x"]] =
      .ok [["1","a","5"], ["1","a","5","x"]] := by
  rw [do_merge_eq_codeMerge m0 (by decide) (by decide)]
  rw [codeMerge_step_lt m0
    (show MergeAdd.compare_fields m0 ["1","a","5"] ["1","a","5","x"] = some (-1) from rfl)
    (by decide) (by decide)]
  rw [codeMerge_nil_left]
  rfl

/-- Claim C6 (confirmed).  Merging two sorted runs that share exactly one
key-equal record pair: the shared key's records are found, their sum
succeeds, the merge succeeds, the summed record is the output's only record
with the shared key, each sum position of it is the decimal of the sum of
the inputs' values there, and every other field equals the first input's
corresponding field. -/
theorem C6_single_shared_key (m : MergeAdd) (hd : SumsDisjoint m) (hnd : m.sums.Nodup)
    (k : KeyVec) (A B : List Rec) (hGA : GoodLines A) (hGB : GoodLines B)
    (hWA : ∀ r ∈ A, WFkeys m r ∧ WFsums m r) (hWB : ∀ r ∈ B, WFkeys m r ∧ WFsums m r)
    (hSA : SortedRun m A) (hSB : SortedRun m B)
    (hcA : keyCount m k A = 1) (hcB : keyCount m k B = 1)
    (hother : ∀ k2 : KeyVec, k2 ≠ k → keyCount m k2 A = 0 ∨ keyCount m k2 B = 0) :
    ∃ a b s out, a ∈ A ∧ b ∈ B ∧ keyvec m a = k ∧ keyvec m b = k ∧
      m.sum_fields a b = .ok s ∧ m.do_merge A B = .ok out ∧
      out.filter (fun r => decide (keyvec m r = k)) = [s] ∧
      (∀ j ∈ m.sums, ∃ x y, a[j]?.bind pyInt = some x ∧ b[j]?.bind pyInt = some y ∧
        s[j]? = some (toString (x + y))) ∧
      (∀ j, j ∉ m.sums → s[j]? = a[j]?) := by
  obtain ⟨a, b, s, out, ha, hb, hak, hbk, hsum, hcm, hfil⟩ :=
    codeMerge_single_pair m hd hnd k A B hWA hWB hSA hSB hcA hcB hother
  exact ⟨a, b, s, out, ha, hb, hak, hbk, hsum,
    by rw [do_merge_eq_codeMerge m hGA hGB]; exact hcm, hfil,
    sum_fields_ok_values m hnd hsum, (sum_fields_ok_spec m hsum).2.2⟩

theorem C6_witness :
    (∃ a b s out, a ∈ [(["1","a","5"] : Rec)] ∧ b ∈ [(["1","a","3"] : Rec)] ∧
      keyvec m0 a = keyvec m0 ["1","a","5"] ∧ keyvec m0 b = keyvec m0 ["1","a","5"] ∧
      MergeAdd.sum_fields m0 a b = .ok s ∧
      MergeAdd.do_merge m0 [["1","a","5"]] [["1","a","3"]] = .ok out ∧
      out.filter (fun r => decide (keyvec m0 r = keyvec m0 ["1","a","5"])) = [s] ∧
      (∀ j ∈ m0.sums, ∃ x y, a[j]?.bind pyInt = some x ∧ b[j]?.bind pyInt = some y ∧
        s[j]? = some (toString (x + y))) ∧
      (∀ j, j ∉ m0.sums → s[j]? = a[j]?)) ∧
    MergeAdd.do_merge m0 [["1","a","5"]] [["1","a","3"]] = .ok [["1","a","8"]] :=
  ⟨C6_single_shared_key m0 (by decide) (by decide) (keyvec m0 ["1","a","5"])
      [["1","a","5"]] [["1","a","3"]] (by decide) (by decide) (by decide) (by decide)
      (by decide) (by decide) (by decide) (by decide)
      (fun k2 hk2 => Or.inl (keyCount_singleton_ne m0 (Ne.symm hk2))),
   do_merge_single_pair_eval⟩

/-- Claim C7 (confirmed).  The output of the merge is sorted per the spec's
total order whenever both inputs are, given well-formed key fields and sum
fields disjoint from the key fields. -/
theorem C7_merge_output_sorted (m : MergeAdd) (hd : SumsDisjoint m) (A B out : List Rec)
    (hGA : GoodLines A) (hGB : GoodLines B)
    (hWA : ∀ r ∈ A, WFkeys m r) (hWB : ∀ r ∈ B, WFkeys m r)
    (hSA : SortedRun m A) (hSB : SortedRun m B)
    (hout : m.do_merge A B = .ok out) :
    SortedRun m out := by
  rw [do_merge_eq_codeMerge m hGA hGB] at hout
  exact (codeMerge_sorted m hd A B hWA hWB hSA hSB out hout).1

theorem C7_witness :
    MergeAdd.do_merge m0 [["1","a","5"]] [["1","b","3"]] =
      .ok [["1","a","5"], ["1","b","3"]] ∧
    SortedRun m0 [["1","a","5"], ["1","b","3"]] :=
  ⟨do_merge_sorted_eval,
   C7_merge_output_sorted m0 (by decide) [["1","a","5"]] [["1","b","3"]]
     [["1","a","5"], ["1","b","3"]] (by decide) (by decide) (by decide) (by decide)
     (by decide) (by decide) do_merge_sorted_eval⟩

/-- Claim C8 (confirmed).  On records whose key positions are present and
whose integer-key values parse, `compare_fields` returns exactly the spec's
three-way comparison of the key data — integer keys in listed order, then
string keys in listed order, then the field count, valued in -1, 0, 1 — it
answers 0 exactly when the two records' key data (field counts included)
coincide, and the comparison is antisymmetric and transitive. -/
theorem C8_compare_implements_total_order (m : MergeAdd) (a b c : Rec)
    (ha : WFkeys m a) (hb : WFkeys m b) (hc : WFkeys m c) :
    m.compare_fields a b = some (kcmp (keyvec m a) (keyvec m b)) ∧
    (kcmp (keyvec m a) (keyvec m b) = -1 ∨ kcmp (keyvec m a) (keyvec m b) = 0 ∨
      kcmp (keyvec m a) (keyvec m b) = 1) ∧
    (m.compare_fields a b = some 0 ↔ keyvec m a = keyvec m b) ∧
    kcmp (keyvec m b) (keyvec m a) = -kcmp (keyvec m a) (keyvec m b) ∧
    (kcmp (keyvec m a) (keyvec m b) < 0 → kcmp (keyvec m b) (keyvec m c) < 0 →
      kcmp (keyvec m a) (keyvec m c) < 0) := by
  refine ⟨compare_fields_eq_kcmp m ha hb, kcmp_range _ _, ⟨?_, ?_⟩, kcmp_antisymm _ _,
    fun h1 h2 => kv_lt_trans m h1 h2⟩
  · intro h
    exact (kv_eq_zero_iff m).mp (compare_some_kcmp m ha hb h)
  · intro h
    rw [compare_fields_eq_kcmp m ha hb, (kv_eq_zero_iff m).mpr h]

theorem C8_witness :
    (WFkeys m0 ["1","a","5"] ∧ WFkeys m0 ["1","b","3"] ∧ WFkeys m0 ["2","a","1"]) ∧
    (MergeAdd.compare_fields m0 ["1","a","5"] ["1","b","3"] =
        some (kcmp (keyvec m0 ["1","a","5"]) (keyvec m0 ["1","b","3"])) ∧
      (kcmp (keyvec m0 ["1","a","5"]) (keyvec m0 ["1","b","3"]) = -1 ∨
        kcmp (keyvec m0 ["1","a","5"]) (keyvec m0 ["1","b","3"]) = 0 ∨
        kcmp (keyvec m0 ["1","a","5"]) (keyvec m0 ["1","b","3"]) = 1) ∧
      (MergeAdd.compare_fields m0 ["1","a","5"] ["1","b","3"] = some 0 ↔
        keyvec m0 ["1","a","5"] = keyvec m0 ["1","b","3"]) ∧
      kcmp (keyvec m0 ["1","b","3"]) (keyvec m0 ["1","a","5"]) =
        -kcmp (keyvec m0 ["1","a","5"]) (keyvec m0 ["1","b","3"]) ∧
      (kcmp (keyvec m0 ["1","a","5"]) (keyvec m0 ["1","b","3"]) < 0 →
        kcmp (keyvec m0 ["1","b","3"]) (keyvec m0 ["2","a","1"]) < 0 →
        kcmp (keyvec m0 ["1","a","5"]) (keyvec m0 ["2","a","1"]) < 0)) :=
  ⟨⟨by decide, by decide, by decide⟩,
   C8_compare_implements_total_order m0 ["1","a","5"] ["1","b","3"] ["2","a","1"]
     (by decide) (by decide) (by decide)⟩

/-- Claim C9 (confirmed).  Merging a run with no empty lines against the
empty run is the identity in both argument positions: every record is
emitted verbatim by the drain phase and the result is `ok`. -/
theorem C9_merge_with_empty_run (m : MergeAdd) (A : List Rec) (hA : GoodLines A) :
    m.do_merge A [] = .ok A ∧ m.do_merge [] A = .ok A :=
  ⟨do_merge_empty_right m hA, do_merge_empty_left m hA⟩

theorem C9_witness :
    GoodLines [["1","a","5"], ["2","b","3"]] ∧
    (MergeAdd.do_merge m0 [["1","a","5"], ["2","b","3"]] [] =
        .ok [["1","a","5"], ["2","b","3"]] ∧
      MergeAdd.do_merge m0 [] [["1","a","5"], ["2","b","3"]] =
        .ok [["1","a","5"], ["2","b","3"]]) :=
  ⟨by decide, C9_merge_with_empty_run m0 [["1","a","5"], ["2","b","3"]] (by decide)⟩

/-- Claim C10 (confirmed).  The first empty line of either input truncates
that input: the merge behaves exactly as if the file ended at that line, in
the main loop (whose continuation test is the empty-fields sentinel) and in
the drain loops (which stop at the first empty line) alike, so every record
after the empty line is silently dropped and no error is reported. -/
theorem C10_empty_line_truncates (m : MergeAdd) (A B pre post : List Rec) :
    m.do_merge (pre ++ [""] :: post) B = m.do_merge pre B ∧
    m.do_merge A (pre ++ [""] :: post) = m.do_merge A pre :=
  ⟨do_merge_empty_line_left m pre post B, do_merge_empty_line_right m A pre post⟩

end Watchlist
